import Mathlib

/-!
Shallow embedding of the parameter-routing, label-shape-negotiation and
estimator-facade logic of `sklearn_keras_wrap/wrappers.py`.

Conventions of the embedding:
* Python dicts are association lists `List (String × V)` with unique keys
  (insertion order preserved); `dictInsert` models `d[k] = v` / `d.update`,
  `dictMerge a b` models the literal `{**a, **b}`.
* 1-D/2-D numpy arrays over a payload type are `NdArray`/`Mat` (a `Mat` is a
  list of rows); numpy float64 values are modelled by `ℚ` (the core logic only
  compares, copies and casts them — no inexact arithmetic is involved).
* Fallible code returns `Except String`; the raised message text is abridged.
* Signature introspection (`generic_utils.has_arg`) sees a callable as its
  `getfullargspec`: named positional-or-keyword parameters, keyword-only
  parameters, and the presence of variadic `*args` / `**kwargs` catch-alls.
-/

/-! ### Python dict model (parameter pools) -/

/-- A parameter pool: a Python dict from parameter name to value. -/
abbrev Pool (V : Type) := List (String × V)

/-- The keys of a pool, in insertion order. -/
def dictKeys {V : Type} (p : Pool V) : List String := p.map Prod.fst

/-- Python `d[k]` lookup (first binding of the key). -/
def dictLookup {V : Type} (k : String) : Pool V → Option V
  | [] => none
  | (k', v) :: rest => if k' = k then some v else dictLookup k rest

/-- Python `k in d`. -/
def dictContains {V : Type} (p : Pool V) (k : String) : Bool :=
  (dictLookup k p).isSome

/-- Python `d[k] = v` (also `d.update({k: v})`): overwrite in place if the
key is present, append otherwise. -/
def dictInsert {V : Type} (p : Pool V) (k : String) (v : V) : Pool V :=
  if dictContains p k then p.map (fun kv => if kv.1 = k then (k, v) else kv)
  else p ++ [(k, v)]

/-- Python `{**a, **b}`: start from `a`, then write every binding of `b`
over it (so `b` wins on key collision). -/
def dictMerge {V : Type} (a b : Pool V) : Pool V :=
  b.foldl (fun acc kv => dictInsert acc kv.1 kv.2) a

/-! ### Signature introspection and the parameter router -/

/-- A Python callable as seen by `inspect.getfullargspec`: its declared
named parameters and whether it carries variadic catch-alls. -/
structure PyCallable where
  /-- Positional-or-keyword parameter names (`argspec.args`). -/
  args : List String
  /-- Keyword-only parameter names (`argspec.kwonlyargs`). -/
  kwonlyargs : List String
  /-- Whether the callable declares a variadic positional catch-all. -/
  varargs : Bool
  /-- Whether the callable declares a variadic keyword catch-all. -/
  varkw : Bool

/-- `generic_utils.has_arg(fn, name)` with its default `accept_all=False`:
the name must be a declared positional-or-keyword or keyword-only parameter;
variadic catch-alls are ignored. -/
def hasArg (fn : PyCallable) (name : String) : Bool :=
  decide (name ∈ fn.args) || decide (name ∈ fn.kwonlyargs)

/-- `BaseWrapper._filter_params(fn, params_to_check)`: iterate the pool and
keep exactly the entries whose name passes `has_arg`. -/
def filterParams {V : Type} (fn : PyCallable) (pool : Pool V) : Pool V :=
  pool.foldl (fun res kv => if hasArg fn kv.1 then dictInsert res kv.1 kv.2 else res) []

/-- `BaseWrapper._fit_keras_model`, the argument-assembly part: inject a
non-null `sample_weight` into the kwargs pool, filter the kwargs by the
model `fit` signature, fail if a non-null `sample_weight` did not survive
the filter, and otherwise merge the filtered instance attributes with the
filtered kwargs (kwargs winning collisions).  The returned pool is what the
opaque `model.fit` receives. -/
def fitArgsAssembly {V : Type} (attrs kwargs : Pool V) (sampleWeight : Option V)
    (modelFit : PyCallable) : Except String (Pool V) :=
  let kwargs1 : Pool V :=
    match sampleWeight with
    | some w => dictInsert kwargs "sample_weight" w
    | none => kwargs
  let kwargs2 := filterParams modelFit kwargs1
  if sampleWeight.isSome = true ∧ dictContains kwargs2 "sample_weight" = false then
    .error "Parameter sample_weight is unsupported by Keras model"
  else
    .ok (dictMerge (filterParams modelFit attrs) kwargs2)

/-! ### set_params -/

/-- Split a character list at the first occurrence of a double underscore,
returning the pieces before and after it. -/
def splitAtDunder : List Char → Option (List Char × List Char)
  | '_' :: '_' :: rest => some ([], rest)
  | c :: rest =>
    match splitAtDunder rest with
    | some pp => some (c :: pp.1, pp.2)
    | none => none
  | [] => none

/-- Python `key.partition("__")` restricted to what `set_params` uses: the
text before the first `__`, and (when a `__` occurs) the text after it. -/
def partitionDunder (k : String) : String × Option String :=
  match splitAtDunder k.toList with
  | some pp => (String.mk pp.1, some (String.mk pp.2))
  | none => (k, none)

/-- The loop of `BaseWrapper.set_params`: walk the supplied parameters in
order; on the first top-level name not in `validKeys` stop with an error
naming it (the attributes already written stay written); otherwise either
record a nested (`component__subparam`) assignment or `setattr` the value.
Returns (error, attributes, collected nested assignments).  The source also
refreshes `valid_params[key]` on plain assignment, which changes no key
membership and is only read back by the nested delegation; the delegation
to a nested estimator mutates that nested object, not these attributes. -/
def setParamsLoop {V : Type} (validKeys : List String) (attrs : Pool V)
    (nested : Pool (Pool V)) : List (String × V) → Option String × Pool V × Pool (Pool V)
  | [] => (none, attrs, nested)
  | (k, v) :: rest =>
    let key := (partitionDunder k).1
    let sub := (partitionDunder k).2
    if key ∈ validKeys then
      match sub with
      | some s =>
        setParamsLoop validKeys attrs
          (dictInsert nested key (dictInsert ((dictLookup key nested).getD []) s v)) rest
      | none => setParamsLoop validKeys (dictInsert attrs key v) nested rest
    else (some key, attrs, nested)

/-- `BaseWrapper.set_params`: early return on an empty call, else run the
loop over `get_params(deep=True)` keys. -/
def setParams {V : Type} (validKeys : List String) (attrs : Pool V)
    (params : List (String × V)) : Option String × Pool V × Pool (Pool V) :=
  if params.isEmpty then (none, attrs, [])
  else setParamsLoop validKeys attrs [] params

/-! ### Build-specification resolution -/

/-- A minimal opaque Keras model: an architecture identifier plus the
training configuration recorded by `compile` (absent when uncompiled). -/
structure KerasModel where
  /-- Opaque identifier standing for layers/weights cloned by `clone_model`. -/
  arch : Nat
  /-- `saving_utils.model_metadata(m)["training_config"]`, when compiled. -/
  trainingConfig : Option Nat
deriving DecidableEq, Repr

/-- `keras.models.clone_model`: copies the architecture, does not copy the
compilation state. -/
def cloneModel (m : KerasModel) : KerasModel :=
  { arch := m.arch, trainingConfig := none }

/-- `compile_args_from_training_config` + `model.compile`: reinstate a
training configuration on a model. -/
def compileModel (m : KerasModel) (tc : Nat) : KerasModel :=
  { m with trainingConfig := some tc }

/-- `_clone_prebuilt_model`: clone, then demand a recorded training
configuration (else a `ValueError`), then recompile the clone with it. -/
def clonePrebuiltModel (m : KerasModel) : Except String KerasModel :=
  let cloned := cloneModel m
  match m.trainingConfig with
  | some tc => .ok (compileModel cloned tc)
  | none => .error "To use this model as build_fn, you must compile it first."

/-- The outcome of probing the user-supplied `build_fn`, in the order the
probes run: `None`, a Keras `Model` instance, a plain function
(`inspect.isfunction`), a callable object exposing `__class__.__call__`,
or anything else. -/
inductive BuildSpec : Type where
  | noSpec : BuildSpec
  | modelInstance (m : KerasModel) : BuildSpec
  | plainFunction : BuildSpec
  | callableObject : BuildSpec
  | other : BuildSpec
deriving DecidableEq

/-- The resolved builder `_check_build_fn` settles on. -/
inductive FinalBuildFn : Type where
  | selfCall : FinalBuildFn
  | cloneOf (m : KerasModel) : FinalBuildFn
  | userFunction : FinalBuildFn
  | objectCall : FinalBuildFn
deriving DecidableEq

/-- `BaseWrapper._check_build_fn`: dispatch on the probed form of the build
specification; `hasCallMethod` is `hasattr(self, "__call__")`. -/
def checkBuildFn (hasCallMethod : Bool) : BuildSpec → Except String FinalBuildFn
  | .noSpec =>
    if hasCallMethod then .ok .selfCall
    else .error "If not using the build_fn param, you must implement a call method"
  | .modelInstance m => .ok (.cloneOf m)
  | .plainFunction =>
    if hasCallMethod then
      .error "This class cannot implement a call method if using the build_fn parameter"
    else .ok .userFunction
  | .callableObject =>
    if hasCallMethod then
      .error "This class cannot implement a call method if using the build_fn parameter"
    else .ok .objectCall
  | .other => .error "build_fn must be a callable or None"

/-! ### Arrays and shapes -/

/-- A 2-D numpy array as a list of rows. -/
abbrev Mat (α : Type) := List (List α)

/-- `m.shape[1]` read off a (well-formed, nonempty) matrix. -/
def Mat.colCount {α : Type} (m : Mat α) : Nat := (m.headD []).length

/-- A raw label array as `fit`/`score` receive it: 1-D or 2-D. -/
inductive NdArray (α : Type) : Type where
  | d1 (v : List α) : NdArray α
  | d2 (m : Mat α) : NdArray α
deriving DecidableEq

/-- `y.reshape(-1, 1)` applied when `y.ndim == 1`, identity on 2-D input. -/
def reshape2d {α : Type} : NdArray α → Mat α
  | .d1 v => v.map (fun a => [a])
  | .d2 m => m

/-- The result of `np.squeeze` on a (well-formed) 2-D array: a scalar when
both dimensions are 1, a 1-D array when exactly one of them is, the array
itself otherwise. -/
inductive Squeezed (α : Type) : Type where
  | scalar (a : α) : Squeezed α
  | vec (v : List α) : Squeezed α
  | mat (m : Mat α) : Squeezed α
deriving DecidableEq, Repr

/-- `np.squeeze` on a 2-D array. -/
def squeeze2 {α : Type} (m : Mat α) : Squeezed α :=
  match m with
  | [r] =>
    match r with
    | [a] => .scalar a
    | r => .vec r
  | _ =>
    if m.all (fun r => r.length = 1) then .vec (m.filterMap List.head?)
    else .mat m

/-- `np.column_stack` over a list of 2-D blocks with equal row counts:
concatenate the blocks along axis 1. -/
def hstack {α : Type} : List (Mat α) → Mat α
  | [] => []
  | [m] => m
  | m :: m' :: ms => List.zipWith (fun r r' => r ++ r') m (hstack (m' :: ms))

/-- A 1-D column reshaped into an `(n, 1)` matrix. -/
def colToMat {α : Type} (col : List α) : Mat α := col.map (fun a => [a])

/-- Flattening, as `np.unique` and `to_categorical` do before working. -/
def matFlatten {α : Type} (m : Mat α) : List α := m.flatten

/-- `np.split(y, y.shape[1], axis=1)`: one `(n, 1)` block per column. -/
def splitColumns {α : Type} (m : Mat α) (dflt : α) : List (Mat α) :=
  (List.range (Mat.colCount m)).map (fun j => m.map (fun r => [r.getD j dflt]))

/-- `np.column_stack` iterating a bare 2-D array: each row becomes a column,
so the result is the transpose.  (Only the single-array branch of the base
post-process hits this.) -/
def transposeMat (m : Mat ℚ) : Mat ℚ :=
  (List.range (Mat.colCount m)).map (fun j => m.map (fun r => r.getD j 0))

/-! ### Sorting, searching and one-hot helpers used by the negotiator -/

/-- `np.unique` on the flattened values: sorted distinct values. -/
def uniqueSorted (l : List Int) : List Int :=
  List.insertionSort (fun a b => a ≤ b) l.dedup

/-- `np.searchsorted(cs, v)` (left side) for a sorted `cs`: the number of
entries strictly below `v`. -/
def searchsorted (cs : List Int) (v : Int) : Nat :=
  (cs.takeWhile (fun c => decide (c < v))).length

/-- `np.argmax` over one row: index of the first occurrence of the maximum
(the accumulator only moves on a strictly larger value). -/
def argmaxAux {α : Type} [LinearOrder α] : List α → Nat → Nat → α → Nat
  | [], _, best, _ => best
  | x :: xs, i, best, bv =>
    if bv < x then argmaxAux xs (i + 1) i x else argmaxAux xs (i + 1) best bv

/-- `np.argmax` (0 on an empty row, as a junk value numpy would reject). -/
def argmax {α : Type} [LinearOrder α] : List α → Nat
  | [] => 0
  | x :: xs => argmaxAux xs 1 0 x

/-- `np.where(p > 0.5, 1, 0)` on one probability. -/
def threshold (p : ℚ) : Int := if 1 / 2 < p then 1 else 0

/-- The index variant of `threshold`, used for fancy indexing `classes_[...]`. -/
def thresholdIdx (p : ℚ) : Nat := if 1 / 2 < p then 1 else 0

/-! ### Label pre-processing -/

/-- The target-type tag `sklearn.utils.multiclass.type_of_target` infers for
a label array (an external collaborator; the tags below are the ones the
negotiator dispatches on, everything else lands in `unknownTag`). -/
inductive ClsType : Type where
  | binary : ClsType
  | multiclass : ClsType
  | multilabelIndicator : ClsType
  | multiclassMultioutput : ClsType
  | continuous : ClsType
  | unknownTag : ClsType
deriving DecidableEq, Repr

/-- `BaseWrapper._pre_process_y`: only normalizes the shape to 2-D (the
`extra_args` it returns are empty). -/
def baseWrapperPreProcessY {α : Type} (y : NdArray α) : Mat α := reshape2d y

/-- The data `KerasClassifier._pre_process_y` returns through `extra_args`
and the block list.  The source stores `classes_` as a bare array (and
`n_classes_` as a bare number) when there is exactly one output and as a
list of arrays otherwise; we keep the uncollapsed list — the post-process
step rewraps the bare array into a one-element list, so the two
representations carry the same content.  `nOutputs` reproduces the
collapsed `n_outputs_`. -/
structure ClassifierPreY : Type where
  blocks : List (Mat Int)
  classes : List (List Int)
  nOutputs : Nat
  nOutputsKeras : Nat
  nClasses : List Nat
  clsType : ClsType
deriving DecidableEq

/-- `KerasClassifier._pre_process_y`.  The target-type tag is the value the
external `type_of_target(y)` collaborator returns for `y` and is passed in
explicitly; theorems about this function carry hypotheses tying the tag to
the shape/values of `y` exactly as the inference rules would. -/
def kerasClassifierPreProcessY (clsType : ClsType) (y0 : NdArray Int) :
    Except String ClassifierPreY :=
  let y := baseWrapperPreProcessY y0
  match clsType with
  | .binary =>
    let cs := uniqueSorted (matFlatten y)
    let yIdx := y.map (fun r => r.map (fun v => (searchsorted cs v : Int)))
    .ok { blocks := [yIdx], classes := [cs], nOutputs := 1, nOutputsKeras := 1,
          nClasses := [cs.length], clsType := .binary }
  | .multiclass =>
    let cs := uniqueSorted (matFlatten y)
    let yIdx := y.map (fun r => r.map (fun v => (searchsorted cs v : Int)))
    .ok { blocks := [yIdx], classes := [cs], nOutputs := 1, nOutputsKeras := 1,
          nClasses := [cs.length], clsType := .multiclass }
  | .multilabelIndicator =>
    let blocks := splitColumns y 0
    let classes : List (List Int) := List.replicate (Mat.colCount y) [0, 1]
    .ok { blocks := blocks, classes := classes,
          nOutputs := if classes.length = 1 then 1 else classes.length,
          nOutputsKeras := blocks.length,
          nClasses := classes.map List.length, clsType := .multilabelIndicator }
  | .multiclassMultioutput =>
    let blocks := splitColumns y 0
    let classes := blocks.map (fun b => uniqueSorted (matFlatten b))
    .ok { blocks := blocks, classes := classes,
          nOutputs := if classes.length = 1 then 1 else classes.length,
          nOutputsKeras := blocks.length,
          nClasses := classes.map List.length, clsType := .multiclassMultioutput }
  | _ => .error "Unknown label type"

/-- The data `KerasRegressor._pre_process_y` returns. -/
structure RegressorPreY : Type where
  blocks : List (Mat ℚ)
  nOutputs : Nat
  nOutputsKeras : Nat
deriving DecidableEq

/-- `KerasRegressor._pre_process_y`: reshape to 2-D, keep all columns in a
single block, one Keras head.  Payloads are `ℚ` because `KerasRegressor.fit`
has already cast the labels to float64 before pre-processing starts. -/
def kerasRegressorPreProcessY (y0 : NdArray ℚ) : RegressorPreY :=
  let y := baseWrapperPreProcessY y0
  { blocks := [y], nOutputs := Mat.colCount y, nOutputsKeras := 1 }

/-! ### Label post-processing -/

/-- What the opaque `model.predict` hands back: a bare array for
single-output models, a list of arrays for multi-output models.
`KerasClassifier._post_process_y` wraps the bare case into a list first. -/
inductive ModelOutput : Type where
  | single (m : Mat ℚ) : ModelOutput
  | multi (ms : List (Mat ℚ)) : ModelOutput
deriving DecidableEq

/-- The `if not isinstance(y, list): y = [y]` normalization. -/
def ModelOutput.toList : ModelOutput → List (Mat ℚ)
  | .single m => [m]
  | .multi ms => ms

/-- The `cls_` the classifier post-process iterates: `classes_` is rewrapped
into a one-element list when `n_outputs_ == 1`. -/
def clsOf (nOutputs : Nat) (classes : List (List Int)) : List (List Int) :=
  if nOutputs = 1 then [classes.headD []] else classes

/-- The label-reconstruction loop of `KerasClassifier._post_process_y`, one
`(probability block, vocabulary)` pair at a time, dispatching on the stored
target-type tag; an unknown tag raises. -/
def classPredLoop (clsType : ClsType) :
    List (Mat ℚ × List Int) → Except String (List (Mat Int))
  | [] => .ok []
  | (y_, cs) :: rest =>
    let hd : Except String (Mat Int) :=
      match clsType with
      | .binary =>
        if Mat.colCount y_ = 1 then
          .ok (y_.map (fun r => r.map (fun p => cs.getD (thresholdIdx p) 0)))
        else
          .ok (y_.map (fun r =>
            [cs.getD (argmax (r.map (fun p => ((threshold p : Int) : ℚ)))) 0]))
      | .multiclass => .ok (y_.map (fun r => [cs.getD (argmax r) 0]))
      | .multilabelIndicator => .ok (y_.map (fun r => r.map threshold))
      | .multiclassMultioutput => .ok (y_.map (fun r => [cs.getD (argmax r) 0]))
      | _ => .error "Unknown classification task type"
    match hd with
    | .error e => .error e
    | .ok p =>
      match classPredLoop clsType rest with
      | .error e => .error e
      | .ok ps => .ok (p :: ps)

/-- The in-loop rewrite of the probability blocks: a binary single-column
block is expanded to the two-column `[1 - p, p]` matrix; every other block
is left as the model produced it.  Blocks beyond the vocabulary list are
never visited by the (zip-bounded) loop and stay unchanged. -/
def adjustProbBlocks (clsType : ClsType) : List (Mat ℚ) → List (List Int) → List (Mat ℚ)
  | [], _ => []
  | bs, [] => bs
  | y_ :: bs, _ :: cs =>
    (if clsType = ClsType.binary ∧ Mat.colCount y_ = 1
     then y_.map (fun r => r.map (fun p => 1 - p) ++ r)
     else y_) :: adjustProbBlocks clsType bs cs

/-- `KerasClassifier._post_process_y`: reconstruct per-output class labels
from the probability blocks, then column-stack and squeeze both the
predicted labels and the (possibly expanded) probabilities. -/
def kerasClassifierPostProcessY (nOutputs : Nat) (classes : List (List Int))
    (clsType : ClsType) (out : ModelOutput) :
    Except String (Squeezed Int × Squeezed ℚ) :=
  let y := out.toList
  let cls := clsOf nOutputs classes
  match classPredLoop clsType (y.zip cls) with
  | .error e => .error e
  | .ok preds =>
    .ok (squeeze2 (hstack preds), squeeze2 (hstack (adjustProbBlocks clsType y cls)))

/-- `BaseWrapper._post_process_y`: `np.squeeze(np.column_stack(y))` — a list
of blocks is stacked along axis 1, a bare 2-D array is iterated row-wise by
`column_stack` and therefore transposed. -/
def baseWrapperPostProcessY (out : ModelOutput) : Squeezed ℚ :=
  match out with
  | .single m => squeeze2 (transposeMat m)
  | .multi ms => squeeze2 (hstack ms)

/-- `KerasRegressor._post_process_y`: `np.squeeze(y.astype("float64"))`;
the cast is the identity on our exact `ℚ` payloads. -/
def kerasRegressorPostProcessY (y : Mat ℚ) : Squeezed ℚ := squeeze2 y

/-! ### Output-count check and loss-driven re-encoding -/

/-- The label argument finally handed to the opaque `model.fit`: a bare
array for a single block, a tuple of squeezed arrays otherwise. -/
inductive FitY (α : Type) : Type where
  | single (m : Mat α) : FitY α
  | multi (ms : List (Squeezed α)) : FitY α
deriving DecidableEq

/-- `BaseWrapper._check_output_model_compatibility`: compare the stored
`n_outputs_keras_` attribute with the number of label blocks (raising on
mismatch), then unwrap a single block to a bare array and squeeze each
block of a multi-block list.  Note the comparison only involves data the
label pre-processing derived; the constructed model is not consulted. -/
def checkOutputModelCompatibility {α : Type} (nOutputsKeras : Nat)
    (y : List (Mat α)) : Except String (FitY α) :=
  if nOutputsKeras ≠ y.length then
    .error "Detected a model with incompatible outputs: y has incompatible shape"
  else
    match y with
    | [b] => .ok (.single b)
    | bs => .ok (.multi (bs.map squeeze2))

/-- A compiled Keras loss as `is_categorical_crossentropy` sees it. -/
inductive KLoss : Type where
  | categoricalCrossentropy : KLoss
  | otherLoss (name : String) : KLoss
deriving DecidableEq

/-- `keras.losses.is_categorical_crossentropy`. -/
def isCategoricalCrossentropyFn (l : KLoss) : Bool :=
  l = KLoss.categoricalCrossentropy

/-- `self.model_.loss`: a single loss broadcast over all outputs, or one
loss per output. -/
inductive LossSpecification : Type where
  | one (l : KLoss) : LossSpecification
  | perOutput (ls : List KLoss) : LossSpecification

/-- `keras.utils.to_categorical` on the `(n, 1)` integer blocks the guard
admits: ravel, then one-hot rows of width `max + 1` (float-valued in numpy;
the 0/1 payload is kept as `Int` here). -/
def toCategorical (y_ : Mat Int) : Mat Int :=
  let flat := matFlatten y_
  let numClasses := (flat.foldr (fun v m => max v m) 0).toNat + 1
  flat.map (fun v => (List.range numClasses).map (fun j => if (j : Int) = v then 1 else 0))

/-- The loop of `KerasClassifier._check_output_model_compatibility`: zip the
per-output losses with the label blocks and one-hot-expand each block that
is single-column (pre-processing never yields 1-D blocks) and whose loss is
categorical crossentropy; other pairs — and blocks beyond the loss list —
pass through unchanged. -/
def adjustBlocksForLoss : List KLoss → List (Mat Int) → List (Mat Int)
  | _, [] => []
  | [], bs => bs
  | l :: ls, b :: bs =>
    (if isCategoricalCrossentropyFn l = true ∧ Mat.colCount b = 1
     then toCategorical b else b) :: adjustBlocksForLoss ls bs

/-- `KerasClassifier._check_output_model_compatibility`: broadcast the loss
specification over `n_outputs_`, rewrite the blocks, then run the base
check. -/
def kerasClassifierCheckOutputModelCompatibility (lossSpec : LossSpecification)
    (nOutputs nOutputsKeras : Nat) (y : List (Mat Int)) : Except String (FitY Int) :=
  let losses :=
    match lossSpec with
    | .one l => List.replicate nOutputs l
    | .perOutput ls => ls
  checkOutputModelCompatibility nOutputsKeras (adjustBlocksForLoss losses y)

/-! ### Estimator facade: predict / predict_proba / score -/

/-- The error taxonomy the facade raises: sklearn `NotFittedError` versus
the `ValueError`/`RuntimeError` family. -/
inductive KError : Type where
  | notFitted (msg : String) : KError
  | valueError (msg : String) : KError
deriving DecidableEq

/-- `BaseWrapper.predict`: the fitted-flag gate comes first; only then are
the inputs validated, the kwargs routed through the filter, the opaque
`model.predict` invoked and its output post-processed.  The opaque model
call and the post-processing step are parameters, matching the dynamic
dispatch of the source. -/
def wrapperPredict {V R : Type} (isFitted : Bool) (attrs kwargs : Pool V)
    (predictSig : PyCallable) (modelPredict : Mat ℚ → Pool V → ModelOutput)
    (postProcess : ModelOutput → Except String R) (X : Mat ℚ) : Except KError R :=
  if isFitted = false then
    .error (.notFitted "Estimator needs to be fit before predict can be called")
  else
    let kw := filterParams predictSig kwargs
    let predictArgs := filterParams predictSig attrs
    match postProcess (modelPredict X (dictMerge predictArgs kw)) with
    | .ok r => .ok r
    | .error e => .error (.valueError e)

/-- `KerasClassifier.predict_proba`: same gate and routing as `predict`,
but the class-probability half of the post-processed pair is returned. -/
def wrapperPredictProba {V : Type} (isFitted : Bool) (attrs kwargs : Pool V)
    (predictSig : PyCallable) (modelPredict : Mat ℚ → Pool V → ModelOutput)
    (nOutputs : Nat) (classes : List (List Int)) (clsType : ClsType)
    (X : Mat ℚ) : Except KError (Squeezed ℚ) :=
  if isFitted = false then
    .error (.notFitted "Estimator needs to be fit before predict can be called")
  else
    let kw := filterParams predictSig kwargs
    let predictArgs := filterParams predictSig attrs
    match kerasClassifierPostProcessY nOutputs classes clsType
        (modelPredict X (dictMerge predictArgs kw)) with
    | .ok pair => .ok pair.2
    | .error e => .error (.valueError e)

/-- `BaseWrapper.score`: pre-process `y` for its metadata (this can itself
raise, e.g. on an unknown target type), then delegate to `predict` — whose
fitted-flag gate therefore also guards `score` — and feed the configured
scorer.  `preProcessedY` is the already-applied (dynamically dispatched)
`_pre_process_y` of the estimator on the score-time labels. -/
def wrapperScore {V R P : Type} (isFitted : Bool) (attrs kwargs : Pool V)
    (predictSig : PyCallable) (modelPredict : Mat ℚ → Pool V → ModelOutput)
    (postProcess : ModelOutput → Except String R) (preProcessedY : Except String P)
    (scorer : R → ℚ) (X : Mat ℚ) : Except KError ℚ :=
  match preProcessedY with
  | .error e => .error (.valueError e)
  | .ok _ =>
    match wrapperPredict isFitted attrs kwargs predictSig modelPredict postProcess X with
    | .error e => .error e
    | .ok r => .ok (scorer r)

/-! ### Canonical model outputs encoding pre-processed labels (for the
round-trip law).  These are not source functions: they build, per target
type, the model output a perfectly calibrated model would emit for the
pre-processed labels — index values as probabilities for the sigmoid
binary/multilabel heads, one-hot probability rows for the softmax heads. -/

/-- A one-hot probability row: `i` zeros, a one, `n - i - 1` zeros. -/
def encodeOneHot (n i : Nat) : List ℚ :=
  List.replicate i 0 ++ 1 :: List.replicate (n - i - 1) 0

/-- The canonical model output encoding the labels a pre-processing run
produced. -/
def encodeModelOutput (pre : ClassifierPreY) : ModelOutput :=
  match pre.clsType with
  | .binary =>
    .single ((pre.blocks.headD []).map (fun r => r.map (fun v : Int => (v : ℚ))))
  | .multiclass =>
    .single ((pre.blocks.headD []).map (fun r =>
      encodeOneHot (pre.classes.headD []).length (r.headD 0).toNat))
  | .multilabelIndicator =>
    .multi (pre.blocks.map (fun b => b.map (fun r => r.map (fun v : Int => (v : ℚ)))))
  | .multiclassMultioutput =>
    .multi ((pre.blocks.zip pre.classes).map (fun bc =>
      bc.1.map (fun r => encodeOneHot bc.2.length (searchsorted bc.2 (r.headD 0)))))
  | _ => .multi []

/-- Classifier round trip: pre-process the labels, encode them as the
canonical model output, post-process, and keep the predicted labels. -/
def classifierRoundTrip (tag : ClsType) (y0 : NdArray Int) : Except String (Squeezed Int) :=
  match kerasClassifierPreProcessY tag y0 with
  | .error e => .error e
  | .ok pre =>
    match kerasClassifierPostProcessY pre.nOutputs pre.classes pre.clsType
        (encodeModelOutput pre) with
    | .error e => .error e
    | .ok pair => .ok pair.1

/-- Regressor round trip: the single pre-processed block is exactly what a
perfectly calibrated single-head model would predict; post-process it. -/
def regressorRoundTrip (y0 : NdArray ℚ) : Squeezed ℚ :=
  kerasRegressorPostProcessY ((kerasRegressorPreProcessY y0).blocks.headD [])

/-- The output-count check as `fit` actually reaches it: the stored
`n_outputs_keras_` is the one the pre-processing of the same labels just
derived. -/
def classifierFitOutputCheck (tag : ClsType) (y0 : NdArray Int)
    (lossSpec : LossSpecification) : Except String (FitY Int) :=
  match kerasClassifierPreProcessY tag y0 with
  | .error e => .error e
  | .ok pre =>
    kerasClassifierCheckOutputModelCompatibility lossSpec pre.nOutputs
      pre.nOutputsKeras pre.blocks

/-! ### Lemmas: the dict model and the parameter router (C2, C3, C7) -/

theorem dictKeys_cons {V : Type} (k : String) (v : V) (p : Pool V) :
    dictKeys ((k, v) :: p) = k :: dictKeys p := rfl

theorem dictLookup_append {V : Type} (k : String) (a b : Pool V) :
    dictLookup k (a ++ b) =
      (match dictLookup k a with
       | some v => some v
       | none => dictLookup k b) := by
  induction a with
  | nil => simp [dictLookup]
  | cons kv rest ih =>
    obtain ⟨k', v⟩ := kv
    by_cases h : k' = k <;> simp [dictLookup, h, ih]

theorem dictLookup_eq_none_iff {V : Type} (k : String) (p : Pool V) :
    dictLookup k p = none ↔ k ∉ dictKeys p := by
  induction p with
  | nil => simp [dictLookup, dictKeys]
  | cons kv rest ih =>
    obtain ⟨k', v⟩ := kv
    rw [dictKeys_cons]
    by_cases h : k' = k
    · subst h
      simp [dictLookup]
    · simp only [dictLookup, if_neg h, ih, List.mem_cons]
      constructor
      · intro hn hor
        rcases hor with h1 | h1
        · exact h h1.symm
        · exact hn h1
      · intro hn h1
        exact hn (Or.inr h1)

theorem mem_dictKeys_of_lookup {V : Type} {k : String} {p : Pool V} {v : V}
    (h : dictLookup k p = some v) : k ∈ dictKeys p := by
  by_contra hmem
  rw [← dictLookup_eq_none_iff] at hmem
  rw [h] at hmem
  exact Option.noConfusion hmem

theorem dictContains_eq_false_iff {V : Type} (p : Pool V) (k : String) :
    dictContains p k = false ↔ k ∉ dictKeys p := by
  unfold dictContains
  cases hl : dictLookup k p with
  | none => simp [← dictLookup_eq_none_iff, hl]
  | some v => simp [mem_dictKeys_of_lookup hl]

theorem dictContains_eq_true_iff {V : Type} (p : Pool V) (k : String) :
    dictContains p k = true ↔ k ∈ dictKeys p := by
  rw [← Bool.not_eq_false, dictContains_eq_false_iff, not_not]

theorem dictKeys_insert {V : Type} (p : Pool V) (k : String) (v : V) :
    dictKeys (dictInsert p k v) =
      (if dictContains p k then dictKeys p else dictKeys p ++ [k]) := by
  unfold dictInsert
  by_cases h : dictContains p k
  · rw [if_pos h, if_pos h]
    unfold dictKeys
    rw [List.map_map]
    refine List.map_congr_left (fun kv _ => ?_)
    by_cases hk : kv.1 = k <;> simp [hk]
  · rw [if_neg h, if_neg h]
    simp [dictKeys]

theorem dictKeys_insert_nodup {V : Type} {p : Pool V} (k : String) (v : V)
    (h : (dictKeys p).Nodup) : (dictKeys (dictInsert p k v)).Nodup := by
  rw [dictKeys_insert]
  by_cases hc : dictContains p k
  · rwa [if_pos hc]
  · rw [if_neg hc]
    have : k ∉ dictKeys p := (dictContains_eq_false_iff p k).mp (by simpa using hc)
    simp [List.nodup_append, h, this]

theorem dictLookup_overwrite_self {V : Type} (p : Pool V) (k : String) (v : V)
    (hmem : k ∈ dictKeys p) :
    dictLookup k (p.map (fun kv => if kv.1 = k then (k, v) else kv)) = some v := by
  induction p with
  | nil => simp [dictKeys] at hmem
  | cons kv rest ih =>
    obtain ⟨k0, v0⟩ := kv
    simp only [List.map_cons]
    by_cases hk0 : (k0, v0).1 = k
    · rw [if_pos hk0]
      simp [dictLookup]
    · rw [if_neg hk0]
      have hmem' : k ∈ dictKeys rest := by
        rw [dictKeys_cons] at hmem
        rcases List.mem_cons.mp hmem with h1 | h1
        · exact (hk0 h1.symm).elim
        · exact h1
      simp [dictLookup, hk0, ih hmem']

theorem dictLookup_overwrite_ne {V : Type} (p : Pool V) (k k' : String) (v : V)
    (h : k' ≠ k) :
    dictLookup k (p.map (fun kv => if kv.1 = k' then (k', v) else kv)) = dictLookup k p := by
  induction p with
  | nil => rfl
  | cons kv rest ih =>
    obtain ⟨k0, v0⟩ := kv
    simp only [List.map_cons]
    by_cases hk0 : (k0, v0).1 = k'
    · rw [if_pos hk0]
      have hk0k : ¬ (k0 = k) := by
        intro hh
        exact h (by rw [← hk0, hh])
      simp [dictLookup, h, hk0k, ih]
    · rw [if_neg hk0]
      by_cases hk : k0 = k <;> simp [dictLookup, hk, ih]

theorem dictLookup_insert_self {V : Type} (p : Pool V) (k : String) (v : V) :
    dictLookup k (dictInsert p k v) = some v := by
  unfold dictInsert
  by_cases h : dictContains p k
  · rw [if_pos h]
    exact dictLookup_overwrite_self p k v ((dictContains_eq_true_iff p k).mp h)
  · rw [if_neg h, dictLookup_append]
    have : dictLookup k p = none := by
      rw [dictLookup_eq_none_iff]
      exact (dictContains_eq_false_iff p k).mp (by simpa using h)
    simp [this, dictLookup]

theorem dictLookup_insert_ne {V : Type} (p : Pool V) (k k' : String) (v : V)
    (h : k' ≠ k) : dictLookup k (dictInsert p k' v) = dictLookup k p := by
  unfold dictInsert
  by_cases hc : dictContains p k'
  · rw [if_pos hc]
    exact dictLookup_overwrite_ne p k k' v h
  · rw [if_neg hc, dictLookup_append]
    cases hl : dictLookup k p with
    | some v0 => rfl
    | none => simp [dictLookup, if_neg (fun hh : k' = k => h hh)]

theorem dictLookup_foldl_insert_not_mem {V : Type} (b : Pool V) (k : String) :
    ∀ (acc : Pool V), k ∉ dictKeys b →
      dictLookup k (b.foldl (fun acc kv => dictInsert acc kv.1 kv.2) acc) =
        dictLookup k acc := by
  induction b with
  | nil => intro acc _; rfl
  | cons kv rest ih =>
    intro acc hmem
    obtain ⟨k', v⟩ := kv
    rw [dictKeys_cons] at hmem
    have h1 : k' ≠ k := fun h => hmem (h ▸ List.mem_cons_self _ _)
    have h2 : k ∉ dictKeys rest := fun h => hmem (List.mem_cons_of_mem _ h)
    simp only [List.foldl_cons]
    rw [ih _ h2, dictLookup_insert_ne _ _ _ _ h1]

theorem dictLookup_merge_mem {V : Type} (a b : Pool V) (k : String)
    (hnd : (dictKeys b).Nodup) (hk : k ∈ dictKeys b) :
    dictLookup k (dictMerge a b) = dictLookup k b := by
  unfold dictMerge
  induction b generalizing a with
  | nil => simp [dictKeys] at hk
  | cons kv rest ih =>
    obtain ⟨k', v⟩ := kv
    rw [dictKeys_cons] at hnd hk
    simp only [List.foldl_cons]
    by_cases h : k' = k
    · subst h
      have hnotin : k' ∉ dictKeys rest := (List.nodup_cons.mp hnd).1
      rw [dictLookup_foldl_insert_not_mem rest k' _ hnotin,
        dictLookup_insert_self]
      simp [dictLookup]
    · have hk' : k ∈ dictKeys rest := by
        rcases List.mem_cons.mp hk with h1 | h1
        · exact (h h1.symm).elim
        · exact h1
      rw [ih _ (List.nodup_cons.mp hnd).2 hk']
      simp [dictLookup, h]

theorem dictLookup_merge_not_mem {V : Type} (a b : Pool V) (k : String)
    (hk : k ∉ dictKeys b) : dictLookup k (dictMerge a b) = dictLookup k a :=
  dictLookup_foldl_insert_not_mem b k a hk

theorem dictContains_append {V : Type} (a b : Pool V) (k : String) :
    dictContains (a ++ b) k = (dictContains a k || dictContains b k) := by
  unfold dictContains
  rw [dictLookup_append]
  cases dictLookup k a <;> simp

theorem filterParams_aux {V : Type} (fn : PyCallable) (pool : Pool V) :
    ∀ res : Pool V, (dictKeys pool).Nodup →
      (∀ k, k ∈ dictKeys pool → dictContains res k = false) →
      pool.foldl (fun res kv => if hasArg fn kv.1 then dictInsert res kv.1 kv.2 else res) res
        = res ++ pool.filter (fun kv => hasArg fn kv.1) := by
  induction pool with
  | nil => intro res _ _; simp
  | cons kv rest ih =>
    intro res hnd hdis
    obtain ⟨k, v⟩ := kv
    rw [dictKeys_cons] at hnd hdis
    simp only [List.foldl_cons]
    by_cases h : hasArg fn (k, v).1
    · rw [if_pos h]
      have hck : dictContains res k = false := hdis k (List.mem_cons_self _ _)
      have hins : dictInsert res (k, v).1 (k, v).2 = res ++ [(k, v)] := by
        unfold dictInsert
        rw [hck]
        simp
      have hdis2 : ∀ k', k' ∈ dictKeys rest → dictContains (res ++ [(k, v)]) k' = false := by
        intro k' hk'
        rw [dictContains_append]
        have h1 : dictContains res k' = false := hdis k' (List.mem_cons_of_mem _ hk')
        have hne : k ≠ k' := by
          intro hh
          exact (List.nodup_cons.mp hnd).1 (hh ▸ hk')
        have h2 : dictContains [(k, v)] k' = false := by
          simp [dictContains, dictLookup, hne]
        rw [h1, h2]
        rfl
      rw [hins, ih (res ++ [(k, v)]) (List.nodup_cons.mp hnd).2 hdis2]
      simp only [List.filter_cons, h, if_true, List.append_assoc]
      rfl
    · rw [if_neg h]
      rw [ih res (List.nodup_cons.mp hnd).2
        (fun k' hk' => hdis k' (List.mem_cons_of_mem _ hk'))]
      have h' : hasArg fn (k, v).1 = false := by simpa using h
      simp [List.filter_cons, h']

theorem filterParams_eq_filter {V : Type} (fn : PyCallable) (pool : Pool V)
    (hnd : (dictKeys pool).Nodup) :
    filterParams fn pool = pool.filter (fun kv => hasArg fn kv.1) := by
  unfold filterParams
  have := filterParams_aux fn pool [] hnd (fun k _ => rfl)
  simpa using this

theorem dictLookup_filter_key {V : Type} (g : String → Bool) (p : Pool V) (k : String) :
    dictLookup k (p.filter (fun kv => g kv.1)) =
      (if g k then dictLookup k p else none) := by
  induction p with
  | nil => cases hg : g k <;> simp [dictLookup, hg]
  | cons kv rest ih =>
    obtain ⟨k0, v0⟩ := kv
    by_cases h0 : g (k0, v0).1
    · simp only [List.filter_cons, h0, if_true]
      by_cases hk : k0 = k
      · subst hk
        simp only [dictLookup, if_pos rfl]
        simp only [Prod.fst] at h0
        simp [h0]
      · simp only [dictLookup, if_neg hk]
        exact ih
    · have h0' : g (k0, v0).1 = false := by simpa using h0
      simp only [List.filter_cons, h0', Bool.false_eq_true, if_false]
      by_cases hk : k0 = k
      · subst hk
        rw [ih]
        simp only [Prod.fst] at h0'
        simp [h0']
      · simp only [dictLookup, if_neg hk]
        exact ih

theorem dictKeys_filter_sublist {V : Type} (g : String → Bool) (p : Pool V) :
    List.Sublist (dictKeys (p.filter (fun kv => g kv.1))) (dictKeys p) :=
  List.Sublist.map Prod.fst (List.filter_sublist p)

theorem dictKeys_filterParams_nodup {V : Type} (fn : PyCallable) (pool : Pool V)
    (hnd : (dictKeys pool).Nodup) : (dictKeys (filterParams fn pool)).Nodup := by
  rw [filterParams_eq_filter fn pool hnd]
  exact List.Nodup.sublist (dictKeys_filter_sublist _ pool) hnd

theorem dictLookup_filterParams {V : Type} (fn : PyCallable) (pool : Pool V)
    (hnd : (dictKeys pool).Nodup) (k : String) :
    dictLookup k (filterParams fn pool) =
      (if hasArg fn k then dictLookup k pool else none) := by
  rw [filterParams_eq_filter fn pool hnd, dictLookup_filter_key]

theorem dictContains_filterParams_false {V : Type} (fn : PyCallable) (pool : Pool V)
    (k : String) (h : hasArg fn k = false) :
    dictContains (filterParams fn pool) k = false := by
  unfold filterParams
  suffices hgen : ∀ res : Pool V, dictContains res k = false →
      dictContains (pool.foldl
        (fun res kv => if hasArg fn kv.1 then dictInsert res kv.1 kv.2 else res) res) k = false by
    exact hgen [] rfl
  induction pool with
  | nil => intro res hres; exact hres
  | cons kv rest ih =>
    intro res hres
    simp only [List.foldl_cons]
    by_cases hcase : hasArg fn kv.1
    · rw [if_pos hcase]
      refine ih _ ?_
      have hne : kv.1 ≠ k := by
        intro hh
        rw [hh, h] at hcase
        exact Bool.noConfusion hcase
      unfold dictContains
      rw [dictLookup_insert_ne _ _ _ _ hne]
      exact hres
    · rw [if_neg hcase]
      exact ih res hres

/-- C2: the router filter returns exactly the subset of the pool whose keys
are declared named parameters (positional-or-keyword or keyword-only) of
the target callable; a key never appears in the result unless the callable
declares it by name, and turning on the variadic catch-all flags of the
callable changes nothing. -/
theorem router_filter_exact {V : Type} (fn : PyCallable) (pool : Pool V)
    (hnd : (dictKeys pool).Nodup) :
    (∀ k v, ((k, v) ∈ filterParams fn pool ↔
      ((k, v) ∈ pool ∧ (k ∈ fn.args ∨ k ∈ fn.kwonlyargs)))) ∧
    filterParams ⟨fn.args, fn.kwonlyargs, true, true⟩ pool = filterParams fn pool := by
  constructor
  · intro k v
    rw [filterParams_eq_filter fn pool hnd, List.mem_filter]
    simp [hasArg]
  · rfl

theorem router_filter_exact_witness :
    (dictKeys [("epochs", (1 : Nat)), ("lr", 2)]).Nodup ∧
    (("epochs", (1 : Nat)) ∈
        filterParams ⟨["epochs"], ["verbose"], true, true⟩ [("epochs", 1), ("lr", 2)] ↔
      (("epochs", (1 : Nat)) ∈ [("epochs", (1 : Nat)), ("lr", 2)] ∧
        ("epochs" ∈ ["epochs"] ∨ "epochs" ∈ ["verbose"]))) :=
  ⟨by decide,
   (router_filter_exact ⟨["epochs"], ["verbose"], true, true⟩
      [("epochs", 1), ("lr", 2)] (by decide)).1 "epochs" 1⟩

/-- C3: on every key present in both pools the merged mapping `{**base,
**override}` carries the override value; in particular the fit-args pool
`_fit_keras_model` assembles carries the fit-time kwarg value whenever the
kwarg name is a declared parameter of the model fit, even if a same-named
instance attribute exists. -/
theorem merge_override_wins {V : Type} :
    (∀ (base override : Pool V) (k : String),
        (dictKeys override).Nodup → k ∈ dictKeys override →
        dictLookup k (dictMerge base override) = dictLookup k override) ∧
    (∀ (attrs kwargs : Pool V) (sw : Option V) (mf : PyCallable) (k : String)
        (v : V) (fa : Pool V),
        (dictKeys kwargs).Nodup → dictLookup k kwargs = some v →
        hasArg mf k = true → k ≠ "sample_weight" →
        fitArgsAssembly attrs kwargs sw mf = Except.ok fa →
        dictLookup k fa = some v) := by
  refine ⟨fun base override k hnd hk => dictLookup_merge_mem base override k hnd hk, ?_⟩
  intro attrs kwargs sw mf k v fa hnd hlk hha hksw hok
  have main : ∀ k1 : Pool V, (dictKeys k1).Nodup → dictLookup k k1 = some v →
      (if sw.isSome = true ∧ dictContains (filterParams mf k1) "sample_weight" = false
       then (Except.error "Parameter sample_weight is unsupported by Keras model" :
         Except String (Pool V))
       else Except.ok (dictMerge (filterParams mf attrs) (filterParams mf k1)))
        = Except.ok fa →
      dictLookup k fa = some v := by
    intro k1 hnd1 hlk1 hok1
    have hlk2 : dictLookup k (filterParams mf k1) = some v := by
      rw [dictLookup_filterParams mf k1 hnd1 k, hha]
      simpa using hlk1
    by_cases hc : sw.isSome = true ∧ dictContains (filterParams mf k1) "sample_weight" = false
    · rw [if_pos hc] at hok1
      exact absurd hok1 (by simp)
    · rw [if_neg hc] at hok1
      injection hok1 with h
      rw [← h]
      rw [dictLookup_merge_mem _ _ k (dictKeys_filterParams_nodup mf k1 hnd1)
        (mem_dictKeys_of_lookup hlk2)]
      exact hlk2
  cases sw with
  | none => exact main kwargs hnd hlk hok
  | some w =>
    refine main (dictInsert kwargs "sample_weight" w)
      (dictKeys_insert_nodup _ _ hnd) ?_ hok
    rw [dictLookup_insert_ne _ _ _ _ (Ne.symm hksw)]
    exact hlk

theorem merge_override_wins_witness :
    dictLookup "batch_size" (dictMerge [("batch_size", (10 : Nat))] [("batch_size", 32)])
      = dictLookup "batch_size" [("batch_size", (32 : Nat))] ∧
    dictLookup "batch_size" [("batch_size", (32 : Nat))] = some 32 :=
  ⟨(merge_override_wins).1 [("batch_size", 10)] [("batch_size", 32)] "batch_size"
      (by decide) (by decide),
   (merge_override_wins).2 [("batch_size", 10)] [("batch_size", 32)] none
      ⟨["batch_size"], [], false, true⟩ "batch_size" 32 [("batch_size", 32)]
      (by decide) (by decide) (by decide) (by decide) rfl⟩

/-- Helper: a non-null sample weight that the model fit signature does not
declare makes the fit-argument assembly fail. -/
theorem fitArgsAssembly_no_sample_weight {V : Type} (attrs kwargs : Pool V) (w : V)
    (mf : PyCallable) (h : hasArg mf "sample_weight" = false) :
    fitArgsAssembly attrs kwargs (some w) mf =
      Except.error "Parameter sample_weight is unsupported by Keras model" := by
  have hdef : fitArgsAssembly attrs kwargs (some w) mf =
      (if (some w).isSome = true ∧
          dictContains (filterParams mf (dictInsert kwargs "sample_weight" w))
            "sample_weight" = false
       then (Except.error "Parameter sample_weight is unsupported by Keras model" :
         Except String (Pool V))
       else Except.ok (dictMerge (filterParams mf attrs)
         (filterParams mf (dictInsert kwargs "sample_weight" w)))) := rfl
  rw [hdef, if_pos ⟨rfl, dictContains_filterParams_false mf _ "sample_weight" h⟩]

/-- C7: a non-null sample_weight is injected into the fit kwargs pool (a
null one is not injected at all), and a non-null sample_weight whose name
the model fit does not declare aborts the assembly with the configuration
error — before any fit-argument pool reaches the model fit. -/
theorem sample_weight_routing {V : Type} :
    (∀ (attrs kwargs : Pool V) (w : V) (mf : PyCallable),
        hasArg mf "sample_weight" = false →
        fitArgsAssembly attrs kwargs (some w) mf =
          Except.error "Parameter sample_weight is unsupported by Keras model") ∧
    (∀ (attrs kwargs : Pool V) (w : V) (mf : PyCallable) (fa : Pool V),
        (dictKeys kwargs).Nodup →
        fitArgsAssembly attrs kwargs (some w) mf = Except.ok fa →
        dictLookup "sample_weight" fa = some w) ∧
    (∀ (attrs kwargs : Pool V) (mf : PyCallable),
        fitArgsAssembly attrs kwargs none mf =
          Except.ok (dictMerge (filterParams mf attrs) (filterParams mf kwargs))) := by
  refine ⟨fun attrs kwargs w mf h => fitArgsAssembly_no_sample_weight attrs kwargs w mf h,
    ?_, ?_⟩
  · intro attrs kwargs w mf fa hnd hok
    by_cases hha : hasArg mf "sample_weight"
    · have hnd1 : (dictKeys (dictInsert kwargs "sample_weight" w)).Nodup :=
        dictKeys_insert_nodup _ _ hnd
      have hlk2 : dictLookup "sample_weight"
          (filterParams mf (dictInsert kwargs "sample_weight" w)) = some w := by
        rw [dictLookup_filterParams mf _ hnd1 _, hha]
        simpa using dictLookup_insert_self kwargs "sample_weight" w
      have hdef : fitArgsAssembly attrs kwargs (some w) mf =
          (if (some w).isSome = true ∧
              dictContains (filterParams mf (dictInsert kwargs "sample_weight" w))
                "sample_weight" = false
           then (Except.error "Parameter sample_weight is unsupported by Keras model" :
             Except String (Pool V))
           else Except.ok (dictMerge (filterParams mf attrs)
             (filterParams mf (dictInsert kwargs "sample_weight" w)))) := rfl
      rw [hdef] at hok
      rw [if_neg ?_] at hok
      · injection hok with h
        rw [← h]
        rw [dictLookup_merge_mem _ _ _ (dictKeys_filterParams_nodup mf _ hnd1)
          (mem_dictKeys_of_lookup hlk2)]
        exact hlk2
      · intro hcon
        have := hcon.2
        unfold dictContains at this
        rw [hlk2] at this
        exact Bool.noConfusion this
    · have hha' : hasArg mf "sample_weight" = false := by simpa using hha
      rw [fitArgsAssembly_no_sample_weight attrs kwargs w mf hha'] at hok
      exact absurd hok (by simp)
  · intro attrs kwargs mf
    have hdef : fitArgsAssembly attrs kwargs none mf =
        (if (none : Option V).isSome = true ∧
            dictContains (filterParams mf kwargs) "sample_weight" = false
         then (Except.error "Parameter sample_weight is unsupported by Keras model" :
           Except String (Pool V))
         else Except.ok (dictMerge (filterParams mf attrs) (filterParams mf kwargs))) := rfl
    rw [hdef, if_neg ?_]
    intro hcon
    exact Bool.noConfusion hcon.1

theorem sample_weight_routing_witness :
    fitArgsAssembly [("epochs", (5 : Nat))] [] (some 7)
        ⟨["x", "y", "epochs"], [], false, true⟩ =
      Except.error "Parameter sample_weight is unsupported by Keras model" ∧
    dictLookup "sample_weight"
        (dictMerge (filterParams ⟨["x", "sample_weight"], [], false, false⟩
          [("epochs", (5 : Nat))])
          (filterParams ⟨["x", "sample_weight"], [], false, false⟩
            (dictInsert [] "sample_weight" 7))) = some 7 ∧
    fitArgsAssembly [("epochs", (5 : Nat))] [] none ⟨["x", "y", "epochs"], [], false, true⟩ =
      Except.ok (dictMerge
        (filterParams ⟨["x", "y", "epochs"], [], false, true⟩ [("epochs", (5 : Nat))])
        (filterParams ⟨["x", "y", "epochs"], [], false, true⟩ [])) :=
  ⟨(sample_weight_routing).1 [("epochs", 5)] [] 7 ⟨["x", "y", "epochs"], [], false, true⟩
      (by decide),
   (sample_weight_routing).2.1 [("epochs", 5)] [] 7 ⟨["x", "sample_weight"], [], false, false⟩
      (dictMerge (filterParams ⟨["x", "sample_weight"], [], false, false⟩ [("epochs", 5)])
        (filterParams ⟨["x", "sample_weight"], [], false, false⟩
          (dictInsert [] "sample_weight" 7)))
      (by decide) rfl,
   (sample_weight_routing).2.2 [("epochs", 5)] [] ⟨["x", "y", "epochs"], [], false, true⟩⟩

/-! ### Lemmas: set_params (C8) -/

theorem setParamsLoop_cons_valid {V : Type} (valid : List String) (attrs : Pool V)
    (nested : Pool (Pool V)) (k0 : String) (v0 : V) (rest : List (String × V))
    (hv : (partitionDunder k0).1 ∈ valid) :
    setParamsLoop valid attrs nested ((k0, v0) :: rest)
      = (match (partitionDunder k0).2 with
         | some s =>
           setParamsLoop valid attrs
             (dictInsert nested (partitionDunder k0).1
               (dictInsert ((dictLookup (partitionDunder k0).1 nested).getD []) s v0)) rest
         | none =>
           setParamsLoop valid (dictInsert attrs (partitionDunder k0).1 v0) nested rest) := by
  simp only [setParamsLoop]
  rw [if_pos hv]

theorem setParamsLoop_cons_invalid {V : Type} (valid : List String) (attrs : Pool V)
    (nested : Pool (Pool V)) (k0 : String) (v0 : V) (rest : List (String × V))
    (hv : (partitionDunder k0).1 ∉ valid) :
    setParamsLoop valid attrs nested ((k0, v0) :: rest)
      = (some (partitionDunder k0).1, attrs, nested) := by
  simp only [setParamsLoop]
  rw [if_neg hv]

/-- C8 counterexample: a set_params call carrying a valid assignment before
an invalid name raises (naming the invalid name) yet has already changed
the earlier parameter value — the claimed atomicity on error fails. -/
theorem set_params_not_atomic_counterexample :
    (setParams ["a"] [("a", (1 : Nat))] [("a", 2), ("b", 3)]).1 = some "b" ∧
    (setParams ["a"] [("a", (1 : Nat))] [("a", 2), ("b", 3)]).2.1 = [("a", 2)] ∧
    [("a", (2 : Nat))] ≠ [("a", 1)] := by decide

/-- C8 (amended): a set_params call containing an invalid top-level name
raises an error naming the first such name; assignments supplied before it
are applied and kept, the invalid entry and everything after it are never
processed.  The estimator is left unchanged only when no valid assignment
precedes the invalid name; a call with only valid names never raises. -/
theorem set_params_first_invalid {V : Type} :
    (∀ (valid : List String) (attrs : Pool V) (nested : Pool (Pool V))
        (good : List (String × V)) (k : String) (v : V) (rest : List (String × V)),
        (∀ kv ∈ good, (partitionDunder kv.1).1 ∈ valid) →
        (partitionDunder k).1 ∉ valid →
        setParamsLoop valid attrs nested (good ++ (k, v) :: rest)
          = (some (partitionDunder k).1, (setParamsLoop valid attrs nested good).2)) ∧
    (∀ (valid : List String) (attrs : Pool V) (nested : Pool (Pool V))
        (params : List (String × V)),
        (∀ kv ∈ params, (partitionDunder kv.1).1 ∈ valid) →
        (setParamsLoop valid attrs nested params).1 = none) ∧
    (∀ (valid : List String) (attrs : Pool V) (good : List (String × V))
        (k : String) (v : V) (rest : List (String × V)),
        (∀ kv ∈ good, (partitionDunder kv.1).1 ∈ valid) →
        (partitionDunder k).1 ∉ valid →
        setParams valid attrs (good ++ (k, v) :: rest)
          = (some (partitionDunder k).1, (setParamsLoop valid attrs [] good).2)) := by
  have h1 : ∀ (valid : List String) (attrs : Pool V) (nested : Pool (Pool V))
      (good : List (String × V)) (k : String) (v : V) (rest : List (String × V)),
      (∀ kv ∈ good, (partitionDunder kv.1).1 ∈ valid) →
      (partitionDunder k).1 ∉ valid →
      setParamsLoop valid attrs nested (good ++ (k, v) :: rest)
        = (some (partitionDunder k).1, (setParamsLoop valid attrs nested good).2) := by
    intro valid attrs nested good
    induction good generalizing attrs nested with
    | nil =>
      intro k v rest _ hbad
      rw [List.nil_append, setParamsLoop_cons_invalid valid attrs nested k v rest hbad]
      rfl
    | cons kv gs ih =>
      intro k v rest hgood hbad
      obtain ⟨k0, v0⟩ := kv
      have hv : (partitionDunder k0).1 ∈ valid := hgood (k0, v0) (List.mem_cons_self _ _)
      rw [List.cons_append, setParamsLoop_cons_valid valid attrs nested k0 v0 _ hv,
        setParamsLoop_cons_valid valid attrs nested k0 v0 gs hv]
      cases (partitionDunder k0).2 with
      | some s => exact ih _ _ k v rest (fun kv hkv => hgood kv (List.mem_cons_of_mem _ hkv)) hbad
      | none => exact ih _ _ k v rest (fun kv hkv => hgood kv (List.mem_cons_of_mem _ hkv)) hbad
  refine ⟨h1, ?_, ?_⟩
  · intro valid attrs nested params
    induction params generalizing attrs nested with
    | nil => intro _; rfl
    | cons kv rest ih =>
      intro hgood
      obtain ⟨k0, v0⟩ := kv
      have hv : (partitionDunder k0).1 ∈ valid := hgood (k0, v0) (List.mem_cons_self _ _)
      rw [setParamsLoop_cons_valid valid attrs nested k0 v0 rest hv]
      cases (partitionDunder k0).2 with
      | some s => exact ih _ _ (fun kv hkv => hgood kv (List.mem_cons_of_mem _ hkv))
      | none => exact ih _ _ (fun kv hkv => hgood kv (List.mem_cons_of_mem _ hkv))
  · intro valid attrs good k v rest hgood hbad
    have hne : (good ++ (k, v) :: rest).isEmpty = false := by
      cases good <;> rfl
    unfold setParams
    rw [hne]
    simp only [Bool.false_eq_true, if_false]
    exact h1 valid attrs [] good k v rest hgood hbad

theorem set_params_first_invalid_witness :
    (∀ kv ∈ [("a", (2 : Nat))], (partitionDunder kv.1).1 ∈ ["a"]) ∧
    (partitionDunder "b").1 ∉ ["a"] ∧
    setParams ["a"] [("a", (1 : Nat))] ([("a", 2)] ++ ("b", 3) :: [])
      = (some (partitionDunder "b").1,
         (setParamsLoop ["a"] [("a", (1 : Nat))] [] [("a", 2)]).2) :=
  ⟨by decide, by decide,
   (set_params_first_invalid).2.2 ["a"] [("a", 1)] [("a", 2)] "b" 3 []
     (by decide) (by decide)⟩

/-! ### Theorems: build-spec resolution (C6) and the not-fitted gate (C5) -/

/-- C6: build-spec resolution by capability probing — no specification
demands a self-implemented call capability (else a configuration error); a
pre-built model instance resolves to clone-and-recompile, and the clone
step itself fails when the instance carries no training configuration,
otherwise it yields a fresh model with the same architecture and the saved
training configuration; a plain function or a callable object is accepted
only when the estimator does not itself implement a call capability; and
anything else is a configuration error. -/
theorem build_spec_resolution :
    (checkBuildFn false .noSpec =
      Except.error "If not using the build_fn param, you must implement a call method") ∧
    (checkBuildFn true .noSpec = Except.ok .selfCall) ∧
    (∀ (hasCall : Bool) (m : KerasModel),
      checkBuildFn hasCall (.modelInstance m) = Except.ok (.cloneOf m)) ∧
    (∀ m : KerasModel, m.trainingConfig = none →
      clonePrebuiltModel m =
        Except.error "To use this model as build_fn, you must compile it first.") ∧
    (∀ (m : KerasModel) (tc : Nat), m.trainingConfig = some tc →
      clonePrebuiltModel m = Except.ok { arch := m.arch, trainingConfig := some tc }) ∧
    (checkBuildFn true .plainFunction =
      Except.error "This class cannot implement a call method if using the build_fn parameter") ∧
    (checkBuildFn false .plainFunction = Except.ok .userFunction) ∧
    (checkBuildFn true .callableObject =
      Except.error "This class cannot implement a call method if using the build_fn parameter") ∧
    (checkBuildFn false .callableObject = Except.ok .objectCall) ∧
    (∀ hasCall : Bool, checkBuildFn hasCall .other =
      Except.error "build_fn must be a callable or None") := by
  refine ⟨rfl, rfl, fun hasCall m => rfl, ?_, ?_, rfl, rfl, rfl, rfl, fun hasCall => rfl⟩
  · intro m hm
    unfold clonePrebuiltModel
    rw [hm]
  · intro m tc hm
    unfold clonePrebuiltModel
    rw [hm]
    rfl

theorem build_spec_resolution_witness :
    (KerasModel.mk 3 none).trainingConfig = none ∧
    clonePrebuiltModel ⟨3, none⟩ =
      Except.error "To use this model as build_fn, you must compile it first." ∧
    (KerasModel.mk 3 (some 5)).trainingConfig = some 5 ∧
    clonePrebuiltModel ⟨3, some 5⟩ = Except.ok { arch := 3, trainingConfig := some 5 } :=
  ⟨rfl, (build_spec_resolution).2.2.2.1 ⟨3, none⟩ rfl, rfl,
   (build_spec_resolution).2.2.2.2.1 ⟨3, some 5⟩ 5 rfl⟩

/-- C5: with the fitted flag unset/false, predict, predict_proba and score
all fail with the not-fitted condition (whose message names the required
prior fit call), whatever the opaque model's predict would have done — the
result does not depend on it, so the model is never invoked.  For score the
labels are assumed to pre-process cleanly (an invalid target type would
raise its own error first). -/
theorem not_fitted_gate {V R P : Type} :
    (∀ (attrs kwargs : Pool V) (sig : PyCallable)
        (mp : Mat ℚ → Pool V → ModelOutput) (post : ModelOutput → Except String R)
        (X : Mat ℚ),
        wrapperPredict false attrs kwargs sig mp post X =
          Except.error
            (.notFitted "Estimator needs to be fit before predict can be called")) ∧
    (∀ (attrs kwargs : Pool V) (sig : PyCallable)
        (mp : Mat ℚ → Pool V → ModelOutput) (nOutputs : Nat)
        (classes : List (List Int)) (clsType : ClsType) (X : Mat ℚ),
        wrapperPredictProba false attrs kwargs sig mp nOutputs classes clsType X =
          Except.error
            (.notFitted "Estimator needs to be fit before predict can be called")) ∧
    (∀ (attrs kwargs : Pool V) (sig : PyCallable)
        (mp : Mat ℚ → Pool V → ModelOutput) (post : ModelOutput → Except String R)
        (preY : Except String P) (scorer : R → ℚ) (X : Mat ℚ) (p : P),
        preY = Except.ok p →
        wrapperScore false attrs kwargs sig mp post preY scorer X =
          Except.error
            (.notFitted "Estimator needs to be fit before predict can be called")) := by
  refine ⟨fun _ _ _ _ _ _ => rfl, fun _ _ _ _ _ _ _ _ => rfl, ?_⟩
  intro attrs kwargs sig mp post preY scorer X p hpre
  unfold wrapperScore
  rw [hpre]
  rfl

theorem not_fitted_gate_witness :
    (Except.ok (0 : Nat) : Except String Nat) = Except.ok 0 ∧
    wrapperScore false ([] : Pool Nat) [] ⟨["x"], [], false, false⟩
        (fun _ _ => ModelOutput.multi []) (fun _ => Except.ok (0 : ℚ))
        (Except.ok (0 : Nat)) (fun r => r) [] =
      Except.error
        (.notFitted "Estimator needs to be fit before predict can be called") :=
  ⟨rfl,
   (not_fitted_gate).2.2 [] [] ⟨["x"], [], false, false⟩ (fun _ _ => ModelOutput.multi [])
     (fun _ => Except.ok (0 : ℚ)) (Except.ok (0 : Nat)) (fun r => r) [] 0 rfl⟩

/-! ### Lemmas: sorted vocabularies and index recovery -/

theorem uniqueSorted_sorted (l : List Int) : (uniqueSorted l).Sorted (fun a b => a ≤ b) :=
  List.sorted_insertionSort _ _

theorem uniqueSorted_nodup (l : List Int) : (uniqueSorted l).Nodup :=
  ((List.perm_insertionSort _ _).nodup_iff).mpr (List.nodup_dedup l)

theorem mem_uniqueSorted {l : List Int} {v : Int} : v ∈ uniqueSorted l ↔ v ∈ l := by
  unfold uniqueSorted
  rw [(List.perm_insertionSort _ _).mem_iff, List.mem_dedup]

theorem getD_searchsorted : ∀ {cs : List Int}, cs.Sorted (fun a b => a ≤ b) →
    ∀ {v : Int}, v ∈ cs → cs.getD (searchsorted cs v) 0 = v := by
  intro cs
  induction cs with
  | nil => intro _ v hv; cases hv
  | cons c t ih =>
    intro hs v hv
    by_cases hlt : c < v
    · have hvt : v ∈ t := by
        rcases List.mem_cons.mp hv with h | h
        · exact absurd hlt (by rw [h]; exact lt_irrefl c)
        · exact h
      have hss : searchsorted (c :: t) v = searchsorted t v + 1 := by
        unfold searchsorted
        rw [List.takeWhile_cons_of_pos (by simpa using hlt)]
        simp
      rw [hss, List.getD_cons_succ]
      exact ih (List.sorted_cons.mp hs).2 hvt
    · have hc : c = v := by
        rcases List.mem_cons.mp hv with h | h
        · exact h.symm
        · have hle : c ≤ v := (List.sorted_cons.mp hs).1 v h
          omega
      have hss : searchsorted (c :: t) v = 0 := by
        unfold searchsorted
        rw [List.takeWhile_cons_of_neg (by simpa using hlt)]
        rfl
      rw [hss, List.getD_cons_zero, hc]

theorem searchsorted_lt_length : ∀ {cs : List Int} {v : Int}, v ∈ cs →
    searchsorted cs v < cs.length := by
  intro cs
  induction cs with
  | nil => intro v hv; cases hv
  | cons c t ih =>
    intro v hv
    by_cases hlt : c < v
    · have hvt : v ∈ t := by
        rcases List.mem_cons.mp hv with h | h
        · exact absurd hlt (by rw [h]; exact lt_irrefl c)
        · exact h
      have hss : searchsorted (c :: t) v = searchsorted t v + 1 := by
        unfold searchsorted
        rw [List.takeWhile_cons_of_pos (by simpa using hlt)]
        simp
      rw [hss]
      simpa using ih hvt
    · have hss : searchsorted (c :: t) v = 0 := by
        unfold searchsorted
        rw [List.takeWhile_cons_of_neg (by simpa using hlt)]
        rfl
      rw [hss]
      simp

/-! ### Lemmas: argmax of a one-hot row, thresholds -/

theorem argmaxAux_replicate_zero (b : Nat) : ∀ (i best : Nat),
    argmaxAux (List.replicate b (0 : ℚ)) i best 1 = best := by
  induction b with
  | zero => intro i best; rfl
  | succ b ih =>
    intro i best
    rw [List.replicate_succ]
    unfold argmaxAux
    rw [if_neg (by norm_num)]
    exact ih _ _

theorem argmaxAux_zero_run (a b : Nat) : ∀ (i best : Nat),
    argmaxAux (List.replicate a (0 : ℚ) ++ 1 :: List.replicate b 0) i best 0 = i + a := by
  induction a with
  | zero =>
    intro i best
    simp only [List.replicate, List.nil_append]
    unfold argmaxAux
    rw [if_pos (by norm_num)]
    rw [argmaxAux_replicate_zero]
    omega
  | succ a ih =>
    intro i best
    rw [List.replicate_succ, List.cons_append]
    unfold argmaxAux
    rw [if_neg (by norm_num)]
    rw [ih]
    omega

theorem argmax_encodeOneHot {n i : Nat} (h : i < n) : argmax (encodeOneHot n i) = i := by
  unfold encodeOneHot
  cases i with
  | zero =>
    simp only [List.replicate, List.nil_append]
    show argmaxAux (List.replicate (n - 0 - 1) (0 : ℚ)) 1 0 1 = 0
    rw [argmaxAux_replicate_zero]
  | succ i' =>
    rw [List.replicate_succ, List.cons_append]
    show argmaxAux (List.replicate i' (0 : ℚ) ++ 1 :: List.replicate (n - (i' + 1) - 1) 0) 1 0 0
      = i' + 1
    rw [argmaxAux_zero_run]
    omega

theorem thresholdIdx_cast {i : Nat} (h : i < 2) : thresholdIdx ((i : Int) : ℚ) = i := by
  interval_cases i
  · unfold thresholdIdx
    rw [if_neg (by norm_num)]
  · unfold thresholdIdx
    rw [if_pos (by norm_num)]

theorem threshold_cast_01 {v : Int} (h : v = 0 ∨ v = 1) : threshold ((v : ℚ)) = v := by
  rcases h with h | h <;> subst h
  · unfold threshold
    rw [if_neg (by norm_num)]
  · unfold threshold
    rw [if_pos (by norm_num)]

/-! ### Lemmas: column stacking inverts column splitting -/

theorem hstack_cons_cons {α : Type} (m m' : Mat α) (ms : List (Mat α)) :
    hstack (m :: m' :: ms) =
      List.zipWith (fun r r' => r ++ r') m (hstack (m' :: ms)) := rfl

theorem hstack_singleton {α : Type} (m : Mat α) : hstack [m] = m := rfl

theorem zipWith_head_tail {α : Type} (dflt : α) : ∀ (y : Mat α),
    (∀ r ∈ y, 1 ≤ r.length) →
    List.zipWith (fun r r' => r ++ r') (y.map (fun r => [r.getD 0 dflt]))
      (y.map (fun r => r.tail)) = y := by
  intro y
  induction y with
  | nil => intro _; rfl
  | cons r rest ih =>
    intro h
    obtain ⟨a, t, rfl⟩ : ∃ a t, r = a :: t := by
      cases r with
      | nil => exact absurd (h [] (List.mem_cons_self _ _)) (by simp)
      | cons a t => exact ⟨a, t, rfl⟩
    simp only [List.map_cons, List.zipWith_cons_cons]
    rw [ih (fun r hr => h r (List.mem_cons_of_mem _ hr))]
    rfl

theorem hstack_splitSingletons {α : Type} (dflt : α) : ∀ (d : Nat) (y : Mat α),
    1 ≤ d → (∀ r ∈ y, r.length = d) →
    hstack ((List.range d).map (fun j => y.map (fun r => [r.getD j dflt]))) = y := by
  intro d
  induction d with
  | zero => intro y h; omega
  | succ d ih =>
    intro y _ hrows
    by_cases hd : d = 0
    · subst hd
      rw [show List.range 1 = [0] from rfl, List.map_cons, List.map_nil, hstack_singleton]
      conv_rhs => rw [← List.map_id y]
      refine List.map_congr_left ?_
      intro r hr
      obtain ⟨a, rfl⟩ := List.length_eq_one.mp (hrows r hr)
      rfl
    · have hd1 : 1 ≤ d := by omega
      rw [List.range_succ_eq_map, List.map_cons, List.map_map]
      have hcols : ((List.range d).map ((fun j => y.map (fun r => [r.getD j dflt])) ∘ Nat.succ))
          = (List.range d).map (fun j => (y.map (fun r => r.tail)).map (fun r => [r.getD j dflt])) := by
        refine List.map_congr_left ?_
        intro j _
        simp only [Function.comp]
        rw [List.map_map]
        refine List.map_congr_left ?_
        intro r hr
        obtain ⟨a, t, rfl⟩ : ∃ a t, r = a :: t := by
          cases r with
          | nil =>
            have := hrows [] hr
            simp at this
          | cons a t => exact ⟨a, t, rfl⟩
        rfl
      rw [hcols]
      have htails : ∀ r ∈ y.map (fun r => r.tail), r.length = d := by
        intro r hr
        obtain ⟨r0, hr0, rfl⟩ := List.mem_map.mp hr
        have := hrows r0 hr0
        simp [List.length_tail, this]
      have hne : (List.range d).map
          (fun j => (y.map (fun r => r.tail)).map (fun r => [r.getD j dflt])) ≠ [] := by
        simp [List.range_eq_nil]
        omega
      obtain ⟨c, cs, hccs⟩ := List.exists_cons_of_ne_nil hne
      rw [hccs, hstack_cons_cons, ← hccs, ih (y.map (fun r => r.tail)) hd1 htails]
      exact zipWith_head_tail dflt y (fun r hr => by rw [hrows r hr]; omega)

/-! ### Lemmas: the label-reconstruction loop, per target type -/

theorem classPredLoop_multilabel (pairs : List (Mat ℚ × List Int)) :
    classPredLoop .multilabelIndicator pairs
      = Except.ok (pairs.map (fun pc => pc.1.map (fun r => r.map threshold))) := by
  induction pairs with
  | nil => rfl
  | cons pc rest ih =>
    obtain ⟨y_, cs⟩ := pc
    simp [classPredLoop, ih]

theorem classPredLoop_mcmo (pairs : List (Mat ℚ × List Int)) :
    classPredLoop .multiclassMultioutput pairs
      = Except.ok (pairs.map (fun pc => pc.1.map (fun r => [pc.2.getD (argmax r) 0]))) := by
  induction pairs with
  | nil => rfl
  | cons pc rest ih =>
    obtain ⟨y_, cs⟩ := pc
    simp [classPredLoop, ih]

theorem classPredLoop_multiclass (pairs : List (Mat ℚ × List Int)) :
    classPredLoop .multiclass pairs
      = Except.ok (pairs.map (fun pc => pc.1.map (fun r => [pc.2.getD (argmax r) 0]))) := by
  induction pairs with
  | nil => rfl
  | cons pc rest ih =>
    obtain ⟨y_, cs⟩ := pc
    simp [classPredLoop, ih]

theorem classPredLoop_binary_single (y_ : Mat ℚ) (cs : List Int)
    (h1 : Mat.colCount y_ = 1) :
    classPredLoop .binary [(y_, cs)]
      = Except.ok [y_.map (fun r => r.map (fun p => cs.getD (thresholdIdx p) 0))] := by
  simp [classPredLoop, h1]

theorem matMap_id {α : Type} (m : Mat α) (f : α → α)
    (h : ∀ r ∈ m, ∀ v ∈ r, f v = v) : m.map (fun r => r.map f) = m := by
  have hrow : ∀ r ∈ m, r.map f = r := by
    intro r hr
    calc r.map f = r.map id := List.map_congr_left (h r hr)
    _ = r := List.map_id r
  calc m.map (fun r => r.map f) = m.map id := List.map_congr_left hrow
  _ = m := List.map_id m

theorem kerasClassifierPostProcessY_ok (nOutputs : Nat) (classes : List (List Int))
    (clsType : ClsType) {out : ModelOutput} {preds : List (Mat Int)}
    (h : classPredLoop clsType (out.toList.zip (clsOf nOutputs classes)) = Except.ok preds) :
    kerasClassifierPostProcessY nOutputs classes clsType out
      = Except.ok (squeeze2 (hstack preds),
          squeeze2 (hstack (adjustProbBlocks clsType out.toList (clsOf nOutputs classes)))) := by
  show (match classPredLoop clsType (out.toList.zip (clsOf nOutputs classes)) with
    | Except.error e => (Except.error e : Except String (Squeezed Int × Squeezed ℚ))
    | Except.ok preds => Except.ok (squeeze2 (hstack preds),
        squeeze2 (hstack (adjustProbBlocks clsType out.toList (clsOf nOutputs classes)))))
    = Except.ok (squeeze2 (hstack preds),
        squeeze2 (hstack (adjustProbBlocks clsType out.toList (clsOf nOutputs classes))))
  rw [h]

theorem classifierRoundTrip_eq {tag : ClsType} {y0 : NdArray Int} {pre : ClassifierPreY}
    {labels : Squeezed Int} {probs : Squeezed ℚ}
    (h1 : kerasClassifierPreProcessY tag y0 = Except.ok pre)
    (h2 : kerasClassifierPostProcessY pre.nOutputs pre.classes pre.clsType
      (encodeModelOutput pre) = Except.ok (labels, probs)) :
    classifierRoundTrip tag y0 = Except.ok labels := by
  unfold classifierRoundTrip
  rw [h1]
  show (match kerasClassifierPostProcessY pre.nOutputs pre.classes pre.clsType
      (encodeModelOutput pre) with
    | .error e => (Except.error e : Except String (Squeezed Int))
    | .ok pair => Except.ok pair.1) = Except.ok labels
  rw [h2]

theorem roundTrip_binary (y0 : NdArray Int) (hne : reshape2d y0 ≠ [])
    (hrows : ∀ r ∈ reshape2d y0, r.length = 1)
    (hlen : (uniqueSorted (matFlatten (reshape2d y0))).length ≤ 2) :
    classifierRoundTrip .binary y0 = Except.ok (squeeze2 (reshape2d y0)) := by
  set m := reshape2d y0 with hm
  set cs := uniqueSorted (matFlatten m) with hcs
  set yIdx := m.map (fun r => r.map (fun v => (searchsorted cs v : Int))) with hyIdx
  set enc := yIdx.map (fun r => r.map (fun v : Int => (v : ℚ))) with henc
  have hpre : kerasClassifierPreProcessY .binary y0 =
      Except.ok ⟨[yIdx], [cs], 1, 1, [cs.length], .binary⟩ := rfl
  have hcol : Mat.colCount enc = 1 := by
    obtain ⟨r0, t0, hm0⟩ := List.exists_cons_of_ne_nil hne
    have hr0 : r0.length = 1 := hrows r0 (by rw [hm0]; exact List.mem_cons_self _ _)
    rw [henc, hyIdx, hm0]
    simp [Mat.colCount, hr0]
  have hloop : classPredLoop .binary
      ((ModelOutput.single enc).toList.zip (clsOf 1 [cs])) =
      Except.ok [enc.map (fun r => r.map (fun p => cs.getD (thresholdIdx p) 0))] := by
    rw [show (ModelOutput.single enc).toList.zip (clsOf 1 [cs]) = [(enc, cs)] from rfl]
    exact classPredLoop_binary_single enc cs hcol
  have hpredmat : enc.map (fun r => r.map (fun p => cs.getD (thresholdIdx p) 0)) = m := by
    rw [henc, hyIdx, List.map_map, List.map_map]
    simp only [Function.comp_def, List.map_map]
    refine matMap_id m _ ?_
    intro r hr v hv
    have hvmem : v ∈ cs := by
      rw [hcs]
      exact mem_uniqueSorted.mpr (List.mem_flatten.mpr ⟨r, hr, hv⟩)
    have hidx : searchsorted cs v < 2 :=
      lt_of_lt_of_le (searchsorted_lt_length hvmem) hlen
    rw [thresholdIdx_cast hidx]
    refine getD_searchsorted ?_ hvmem
    rw [hcs]
    exact uniqueSorted_sorted _
  have hpost := kerasClassifierPostProcessY_ok 1 [cs] .binary hloop
  rw [hstack_singleton, hpredmat] at hpost
  exact classifierRoundTrip_eq hpre hpost

theorem roundTrip_multiclass (y0 : NdArray Int)
    (hrows : ∀ r ∈ reshape2d y0, r.length = 1) :
    classifierRoundTrip .multiclass y0 = Except.ok (squeeze2 (reshape2d y0)) := by
  set m := reshape2d y0 with hm
  set cs := uniqueSorted (matFlatten m) with hcs
  set yIdx := m.map (fun r => r.map (fun v => (searchsorted cs v : Int))) with hyIdx
  set enc := yIdx.map (fun r => encodeOneHot cs.length (r.headD 0).toNat) with henc
  have hpre : kerasClassifierPreProcessY .multiclass y0 =
      Except.ok ⟨[yIdx], [cs], 1, 1, [cs.length], .multiclass⟩ := rfl
  have hloop : classPredLoop .multiclass ((ModelOutput.single enc).toList.zip (clsOf 1 [cs]))
      = Except.ok [enc.map (fun r => [cs.getD (argmax r) 0])] := by
    rw [show (ModelOutput.single enc).toList.zip (clsOf 1 [cs]) = [(enc, cs)] from rfl]
    rw [classPredLoop_multiclass]
    rfl
  have hpredmat : enc.map (fun r => [cs.getD (argmax r) 0]) = m := by
    rw [henc, hyIdx, List.map_map, List.map_map]
    conv_rhs => rw [← List.map_id m]
    refine List.map_congr_left ?_
    intro r hr
    obtain ⟨v, rfl⟩ := List.length_eq_one.mp (hrows r hr)
    simp only [Function.comp_def, List.map_cons, List.map_nil, List.headD_cons, id_eq]
    have hvmem : v ∈ cs := by
      rw [hcs]
      exact mem_uniqueSorted.mpr (List.mem_flatten.mpr ⟨[v], hr, List.mem_cons_self _ _⟩)
    have hlt : searchsorted cs v < cs.length := searchsorted_lt_length hvmem
    rw [Int.toNat_natCast, argmax_encodeOneHot hlt]
    have hsorted : cs.Sorted (fun a b => a ≤ b) := by
      rw [hcs]
      exact uniqueSorted_sorted _
    rw [getD_searchsorted hsorted hvmem]
  have hpost := kerasClassifierPostProcessY_ok 1 [cs] .multiclass hloop
  rw [hstack_singleton, hpredmat] at hpost
  exact classifierRoundTrip_eq hpre hpost

theorem zip_map_fst {α β γ : Type} (as : List α) (bs : List β) (g : α → γ)
    (h : as.length ≤ bs.length) :
    (List.zip as bs).map (fun p => g p.1) = as.map g := by
  rw [show (fun p : α × β => g p.1) = g ∘ Prod.fst from rfl, ← List.map_map,
    List.map_fst_zip as bs h]

theorem getD_mem_or_default {α : Type} : ∀ (l : List α) (n : Nat) (d : α),
    l.getD n d ∈ l ∨ l.getD n d = d := by
  intro l
  induction l with
  | nil => intro n d; right; rfl
  | cons a t ih =>
    intro n d
    cases n with
    | zero => left; rw [List.getD_cons_zero]; exact List.mem_cons_self _ _
    | succ n =>
      rw [List.getD_cons_succ]
      rcases ih n d with h | h
      · left; exact List.mem_cons_of_mem _ h
      · right; exact h

theorem splitColumns_length {α : Type} (m : Mat α) (dflt : α) :
    (splitColumns m dflt).length = Mat.colCount m := by
  unfold splitColumns
  rw [List.length_map, List.length_range]

theorem colCount_of_rows {α : Type} {m : Mat α} {d : Nat} (hne : m ≠ [])
    (hrows : ∀ r ∈ m, r.length = d) : Mat.colCount m = d := by
  obtain ⟨r0, t0, rfl⟩ := List.exists_cons_of_ne_nil hne
  unfold Mat.colCount
  rw [List.headD_cons]
  exact hrows r0 (List.mem_cons_self _ _)

theorem roundTrip_multilabel (m : Mat Int) (d : Nat) (hne : m ≠ []) (hd : 2 ≤ d)
    (hrows : ∀ r ∈ m, r.length = d)
    (hvals : ∀ r ∈ m, ∀ v ∈ r, v = 0 ∨ v = 1) :
    classifierRoundTrip .multilabelIndicator (.d2 m) = Except.ok (squeeze2 m) := by
  have hcc : Mat.colCount m = d := colCount_of_rows hne hrows
  have hbl : (splitColumns m 0).length = d := by rw [splitColumns_length, hcc]
  have hpre : kerasClassifierPreProcessY .multilabelIndicator (.d2 m) =
      Except.ok ⟨splitColumns m 0, List.replicate d [0, 1], d, (splitColumns m 0).length,
        (List.replicate d ([0, 1] : List Int)).map List.length, .multilabelIndicator⟩ := by
    show (Except.ok ⟨splitColumns m 0, List.replicate (Mat.colCount m) [0, 1],
        if (List.replicate (Mat.colCount m) ([0, 1] : List Int)).length = 1 then 1
        else (List.replicate (Mat.colCount m) ([0, 1] : List Int)).length,
        (splitColumns m 0).length,
        (List.replicate (Mat.colCount m) ([0, 1] : List Int)).map List.length,
        ClsType.multilabelIndicator⟩ : Except String ClassifierPreY)
      = Except.ok ⟨splitColumns m 0, List.replicate d [0, 1], d, (splitColumns m 0).length,
        (List.replicate d ([0, 1] : List Int)).map List.length, .multilabelIndicator⟩
    rw [hcc, List.length_replicate, if_neg (by omega)]
  have hcls : clsOf d (List.replicate d ([0, 1] : List Int)) = List.replicate d [0, 1] := by
    unfold clsOf
    rw [if_neg (by omega)]
  set blocks := splitColumns m 0 with hblocks
  set out := ModelOutput.multi (blocks.map (fun b => b.map (fun r => r.map (fun v : Int => (v : ℚ)))))
    with hout
  have henc : encodeModelOutput ⟨blocks, List.replicate d [0, 1], d, blocks.length,
      (List.replicate d ([0, 1] : List Int)).map List.length, .multilabelIndicator⟩ = out := rfl
  have hloop : classPredLoop .multilabelIndicator
        (out.toList.zip (clsOf d (List.replicate d [0, 1])))
      = Except.ok blocks := by
    rw [hcls]
    rw [show out.toList = blocks.map (fun b => b.map (fun r => r.map (fun v : Int => (v : ℚ))))
      from rfl]
    rw [classPredLoop_multilabel]
    congr 1
    rw [zip_map_fst _ _ _ (by rw [List.length_map, hbl, List.length_replicate])]
    rw [List.map_map]
    conv_rhs => rw [← List.map_id blocks]
    refine List.map_congr_left ?_
    intro b hb
    simp only [Function.comp_def, List.map_map, id_eq]
    refine matMap_id b _ ?_
    intro r hr v hv
    have hv01 : v = 0 ∨ v = 1 := by
      obtain ⟨j, _, rfl⟩ := by
        rw [hblocks] at hb
        unfold splitColumns at hb
        exact List.mem_map.mp hb
      obtain ⟨r0, hr0, rfl⟩ := List.mem_map.mp hr
      have hvv : v = r0.getD j 0 := by
        rcases List.mem_singleton.mp hv with rfl
        rfl
      subst hvv
      rcases getD_mem_or_default r0 j 0 with h | h
      · exact hvals r0 hr0 _ h
      · left; exact h
    exact threshold_cast_01 hv01
  have hpost := kerasClassifierPostProcessY_ok d (List.replicate d [0, 1])
    .multilabelIndicator hloop
  have hst : hstack blocks = m := by
    rw [hblocks]
    unfold splitColumns
    rw [hcc]
    exact hstack_splitSingletons 0 d m (by omega) hrows
  rw [hst] at hpost
  exact classifierRoundTrip_eq hpre hpost

theorem zip_self_map {α β : Type} (l : List α) (g : α → β) :
    l.zip (l.map g) = l.map (fun x => (x, g x)) := by
  induction l with
  | nil => rfl
  | cons a t ih => simp [ih]

theorem roundTrip_mcmo (m : Mat Int) (d : Nat) (hne : m ≠ []) (hd : 2 ≤ d)
    (hrows : ∀ r ∈ m, r.length = d) :
    classifierRoundTrip .multiclassMultioutput (.d2 m) = Except.ok (squeeze2 m) := by
  have hcc : Mat.colCount m = d := colCount_of_rows hne hrows
  have hbl : (splitColumns m 0).length = d := by rw [splitColumns_length, hcc]
  set blocks := splitColumns m 0 with hblocks
  set clsF : Mat Int → List Int := fun b => uniqueSorted (matFlatten b) with hclsF
  have hcll : (blocks.map clsF).length = d := by rw [List.length_map, hbl]
  have hpre : kerasClassifierPreProcessY .multiclassMultioutput (.d2 m) =
      Except.ok ⟨blocks, blocks.map clsF, d, blocks.length,
        (blocks.map clsF).map List.length, .multiclassMultioutput⟩ := by
    show (Except.ok ⟨blocks, blocks.map clsF,
        if (blocks.map clsF).length = 1 then 1 else (blocks.map clsF).length,
        blocks.length, (blocks.map clsF).map List.length,
        ClsType.multiclassMultioutput⟩ : Except String ClassifierPreY)
      = Except.ok ⟨blocks, blocks.map clsF, d, blocks.length,
        (blocks.map clsF).map List.length, .multiclassMultioutput⟩
    rw [hcll, if_neg (by omega)]
  have hcls : clsOf d (blocks.map clsF) = blocks.map clsF := by
    unfold clsOf
    rw [if_neg (by omega)]
  set encB : Mat Int → Mat ℚ := fun b =>
    b.map (fun r => encodeOneHot (clsF b).length (searchsorted (clsF b) (r.headD 0)))
    with hencB
  have henc : encodeModelOutput ⟨blocks, blocks.map clsF, d, blocks.length,
      (blocks.map clsF).map List.length, .multiclassMultioutput⟩
      = ModelOutput.multi (blocks.map encB) := by
    show ModelOutput.multi ((blocks.zip (blocks.map clsF)).map (fun bc =>
        bc.1.map (fun r => encodeOneHot bc.2.length (searchsorted bc.2 (r.headD 0)))))
      = ModelOutput.multi (blocks.map encB)
    rw [zip_self_map, List.map_map]
    rfl
  have hrecover : ∀ b ∈ blocks, (encB b).map (fun r => [(clsF b).getD (argmax r) 0]) = b := by
    intro b hb
    obtain ⟨j, hj, rfl⟩ : ∃ j, j ∈ List.range (Mat.colCount m) ∧
        m.map (fun r => [r.getD j 0]) = b := by
      rw [hblocks] at hb
      unfold splitColumns at hb
      obtain ⟨j, hj, he⟩ := List.mem_map.mp hb
      exact ⟨j, hj, he⟩
    rw [hencB]
    simp only [List.map_map]
    conv_rhs => rw [← List.map_id (m.map (fun r => [r.getD j 0]))]
    simp only [List.map_map]
    refine List.map_congr_left ?_
    intro r0 hr0
    simp only [Function.comp_def, List.headD_cons, id_eq]
    set v := r0.getD j 0 with hv
    have hvmem : v ∈ clsF (m.map (fun r => [r.getD j 0])) := by
      rw [hclsF]
      refine mem_uniqueSorted.mpr ?_
      exact List.mem_flatten.mpr ⟨[v], List.mem_map.mpr ⟨r0, hr0, rfl⟩, List.mem_cons_self _ _⟩
    have hlt := searchsorted_lt_length hvmem
    rw [argmax_encodeOneHot hlt]
    rw [getD_searchsorted ?_ hvmem]
    rw [hclsF]
    exact uniqueSorted_sorted _
  have hloop : classPredLoop .multiclassMultioutput
        ((ModelOutput.multi (blocks.map encB)).toList.zip (clsOf d (blocks.map clsF)))
      = Except.ok blocks := by
    rw [hcls]
    rw [show (ModelOutput.multi (blocks.map encB)).toList = blocks.map encB from rfl]
    rw [List.zip_map', classPredLoop_mcmo, List.map_map]
    congr 1
    conv_rhs => rw [← List.map_id blocks]
    refine List.map_congr_left ?_
    intro b hb
    simp only [Function.comp_def, id_eq]
    exact hrecover b hb
  have hpost := kerasClassifierPostProcessY_ok d (blocks.map clsF)
    .multiclassMultioutput hloop
  have hst : hstack blocks = m := by
    rw [hblocks]
    unfold splitColumns
    rw [hcc]
    exact hstack_splitSingletons 0 d m (by omega) hrows
  rw [hst] at hpost
  rw [← henc] at hpost
  exact classifierRoundTrip_eq hpre hpost

/-- C1: for each of the five target-type tags, pre-processing a label array
at fit time and post-processing the canonical model output that encodes
those same labels returns the original label values — the predicted-label
matrix equals the shape-normalized original labels up to the documented
squeeze of singleton dimensions (and the documented float cast for the
continuous/regression tag, whose labels are already float-valued here). -/
theorem label_round_trip :
    (∀ y0 : NdArray Int, reshape2d y0 ≠ [] → (∀ r ∈ reshape2d y0, r.length = 1) →
        (uniqueSorted (matFlatten (reshape2d y0))).length ≤ 2 →
        classifierRoundTrip .binary y0 = Except.ok (squeeze2 (reshape2d y0))) ∧
    (∀ y0 : NdArray Int, (∀ r ∈ reshape2d y0, r.length = 1) →
        classifierRoundTrip .multiclass y0 = Except.ok (squeeze2 (reshape2d y0))) ∧
    (∀ (m : Mat Int) (d : Nat), m ≠ [] → 2 ≤ d → (∀ r ∈ m, r.length = d) →
        (∀ r ∈ m, ∀ v ∈ r, v = 0 ∨ v = 1) →
        classifierRoundTrip .multilabelIndicator (.d2 m) = Except.ok (squeeze2 m)) ∧
    (∀ (m : Mat Int) (d : Nat), m ≠ [] → 2 ≤ d → (∀ r ∈ m, r.length = d) →
        classifierRoundTrip .multiclassMultioutput (.d2 m) = Except.ok (squeeze2 m)) ∧
    (∀ y0 : NdArray ℚ, regressorRoundTrip y0 = squeeze2 (reshape2d y0)) :=
  ⟨roundTrip_binary, roundTrip_multiclass, roundTrip_multilabel, roundTrip_mcmo,
   fun _ => rfl⟩

theorem label_round_trip_witness :
    (reshape2d (NdArray.d1 [(5 : Int), -2, 5]) ≠ [] ∧
      classifierRoundTrip .binary (.d1 [5, -2, 5])
        = Except.ok (squeeze2 (reshape2d (NdArray.d1 [(5 : Int), -2, 5])))) ∧
    classifierRoundTrip .multiclass (.d1 [1, 5, 2])
      = Except.ok (squeeze2 (reshape2d (NdArray.d1 [(1 : Int), 5, 2]))) ∧
    classifierRoundTrip .multilabelIndicator (.d2 [[1, 0], [0, 1], [1, 1]])
      = Except.ok (squeeze2 ([[1, 0], [0, 1], [1, 1]] : Mat Int)) ∧
    classifierRoundTrip .multiclassMultioutput (.d2 [[1, 0, 5], [2, 1, 3]])
      = Except.ok (squeeze2 ([[1, 0, 5], [2, 1, 3]] : Mat Int)) ∧
    regressorRoundTrip (.d1 [3 / 2, 2]) = squeeze2 (reshape2d (NdArray.d1 [(3 : ℚ) / 2, 2])) :=
  ⟨⟨by decide, label_round_trip.1 (.d1 [5, -2, 5]) (by decide) (by decide) (by decide)⟩,
   label_round_trip.2.1 (.d1 [1, 5, 2]) (by decide),
   label_round_trip.2.2.1 [[1, 0], [0, 1], [1, 1]] 2 (by decide) (by decide)
     (by decide) (by decide),
   label_round_trip.2.2.2.1 [[1, 0, 5], [2, 1, 3]] 3 (by decide) (by decide) (by decide),
   label_round_trip.2.2.2.2 (.d1 [3 / 2, 2])⟩

/-! ### Theorems: output-count check (C4) and loss-driven re-encoding (C9) -/

theorem adjustBlocksForLoss_length : ∀ (ls : List KLoss) (bs : List (Mat Int)),
    (adjustBlocksForLoss ls bs).length = bs.length := by
  intro ls
  induction ls with
  | nil => intro bs; cases bs <;> rfl
  | cons l ls ih =>
    intro bs
    cases bs with
    | nil => rfl
    | cons b bs =>
      show ((if isCategoricalCrossentropyFn l = true ∧ Mat.colCount b = 1
             then toCategorical b else b) :: adjustBlocksForLoss ls bs).length
        = (b :: bs).length
      rw [List.length_cons, List.length_cons, ih]

theorem checkOutputModelCompatibility_ok {α : Type} (n : Nat) (y : List (Mat α))
    (h : n = y.length) : ∃ out, checkOutputModelCompatibility n y = Except.ok out := by
  unfold checkOutputModelCompatibility
  rw [if_neg (by omega)]
  cases y with
  | nil => exact ⟨.multi [], rfl⟩
  | cons b bs =>
    cases bs with
    | nil => exact ⟨.single b, rfl⟩
    | cons b' bs' => exact ⟨.multi ((b :: b' :: bs').map squeeze2), rfl⟩

/-- C4 (what the code actually does): at the spec's own failing input — the
multilabel indicator matrix whose pre-processing yields two one-column
blocks — the fit-path output check succeeds outright, because it compares
the label-derived `n_outputs_keras_` attribute against the label block
count (always equal in the fit path) and never consults the constructed
model; more generally the fit-path check never raises for any label array
the pre-processing accepts, whatever the model looks like. -/
theorem output_check_never_sees_model :
    (classifierFitOutputCheck .multilabelIndicator (.d2 [[1, 0], [0, 1], [1, 1]])
        (.one (.otherLoss "binary_crossentropy"))
      = Except.ok (.multi [.vec [1, 0, 1], .vec [0, 1, 1]])) ∧
    (∀ (tag : ClsType) (y0 : NdArray Int) (ls : LossSpecification)
        (pre : ClassifierPreY),
        kerasClassifierPreProcessY tag y0 = Except.ok pre →
        ∃ out, classifierFitOutputCheck tag y0 ls = Except.ok out) := by
  refine ⟨rfl, ?_⟩
  intro tag y0 ls pre hpre
  have hk : pre.nOutputsKeras = pre.blocks.length := by
    cases tag with
    | binary => rw [← Except.ok.inj hpre]; rfl
    | multiclass => rw [← Except.ok.inj hpre]; rfl
    | multilabelIndicator => rw [← Except.ok.inj hpre]
    | multiclassMultioutput => rw [← Except.ok.inj hpre]
    | continuous => exact Except.noConfusion hpre
    | unknownTag => exact Except.noConfusion hpre
  unfold classifierFitOutputCheck
  rw [hpre]
  unfold kerasClassifierCheckOutputModelCompatibility
  exact checkOutputModelCompatibility_ok _ _ (by rw [hk, adjustBlocksForLoss_length])

theorem output_check_never_sees_model_witness :
    kerasClassifierPreProcessY .multilabelIndicator (.d2 [[1, 0], [0, 1], [1, 1]])
      = Except.ok ⟨[[[1], [0], [1]], [[0], [1], [1]]], [[0, 1], [0, 1]], 2, 2, [2, 2],
          .multilabelIndicator⟩ ∧
    ∃ out, classifierFitOutputCheck .multilabelIndicator (.d2 [[1, 0], [0, 1], [1, 1]])
        (.one (.otherLoss "binary_crossentropy")) = Except.ok out :=
  ⟨rfl,
   (output_check_never_sees_model).2 .multilabelIndicator (.d2 [[1, 0], [0, 1], [1, 1]])
     (.one (.otherLoss "binary_crossentropy"))
     ⟨[[[1], [0], [1]], [[0], [1], [1]]], [[0, 1], [0, 1]], 2, 2, [2, 2],
       .multilabelIndicator⟩ rfl⟩

/-- C9: in the classifier output-compatibility step, run before the
output-count check, every label block paired with a categorical-crossentropy
loss that is single-column is replaced by its to_categorical one-hot
expansion; blocks paired with any other loss — and blocks beyond the loss
list — pass through unchanged, so the encoding handed to the model fit
depends on the compiled loss. -/
theorem loss_driven_label_encoding :
    (∀ (losses : List KLoss) (blocks : List (Mat Int)) (i : Nat) (l : KLoss) (b : Mat Int),
        losses[i]? = some l → blocks[i]? = some b →
        (adjustBlocksForLoss losses blocks)[i]?
          = some (if isCategoricalCrossentropyFn l = true ∧ Mat.colCount b = 1
                  then toCategorical b else b)) ∧
    (∀ (losses : List KLoss) (blocks : List (Mat Int)) (i : Nat),
        losses.length ≤ i →
        (adjustBlocksForLoss losses blocks)[i]? = blocks[i]?) ∧
    (∀ (ls : LossSpecification) (nOutputs nOutputsKeras : Nat) (y : List (Mat Int)),
        kerasClassifierCheckOutputModelCompatibility ls nOutputs nOutputsKeras y
          = checkOutputModelCompatibility nOutputsKeras
              (adjustBlocksForLoss
                (match ls with
                 | .one l => List.replicate nOutputs l
                 | .perOutput ls2 => ls2) y)) := by
  refine ⟨?_, ?_, fun ls n nk y => rfl⟩
  · intro losses
    induction losses with
    | nil => intro blocks i l b hl; exact absurd hl (by simp)
    | cons l0 ls ih =>
      intro blocks i l b hl hb
      cases blocks with
      | nil => exact absurd hb (by simp)
      | cons b0 bs =>
        cases i with
        | zero =>
          rw [List.getElem?_cons_zero] at hl hb
          injection hl with hl
          injection hb with hb
          subst hl
          subst hb
          show ((if isCategoricalCrossentropyFn l0 = true ∧ Mat.colCount b0 = 1
                 then toCategorical b0 else b0) :: adjustBlocksForLoss ls bs)[0]?
            = some (if isCategoricalCrossentropyFn l0 = true ∧ Mat.colCount b0 = 1
                    then toCategorical b0 else b0)
          rw [List.getElem?_cons_zero]
        | succ i =>
          rw [List.getElem?_cons_succ] at hl hb
          show ((if isCategoricalCrossentropyFn l0 = true ∧ Mat.colCount b0 = 1
                 then toCategorical b0 else b0) :: adjustBlocksForLoss ls bs)[i + 1]?
            = some (if isCategoricalCrossentropyFn l = true ∧ Mat.colCount b = 1
                    then toCategorical b else b)
          rw [List.getElem?_cons_succ]
          exact ih bs i l b hl hb
  · intro losses
    induction losses with
    | nil =>
      intro blocks i _
      cases blocks <;> rfl
    | cons l0 ls ih =>
      intro blocks i hi
      cases blocks with
      | nil => rfl
      | cons b0 bs =>
        cases i with
        | zero => exact absurd hi (by simp)
        | succ i =>
          show ((if isCategoricalCrossentropyFn l0 = true ∧ Mat.colCount b0 = 1
                 then toCategorical b0 else b0) :: adjustBlocksForLoss ls bs)[i + 1]?
            = (b0 :: bs)[i + 1]?
          rw [List.getElem?_cons_succ, List.getElem?_cons_succ]
          exact ih bs i (by simpa using hi)

theorem loss_driven_label_encoding_witness :
    ([KLoss.categoricalCrossentropy][0]? = some KLoss.categoricalCrossentropy) ∧
    (([[[0], [2], [1]]] : List (Mat Int))[0]? = some [[0], [2], [1]]) ∧
    (adjustBlocksForLoss [KLoss.categoricalCrossentropy] [[[0], [2], [1]]])[0]?
      = some (if isCategoricalCrossentropyFn KLoss.categoricalCrossentropy = true ∧
                  Mat.colCount ([[0], [2], [1]] : Mat Int) = 1
              then toCategorical [[0], [2], [1]] else [[0], [2], [1]]) :=
  ⟨rfl, rfl,
   (loss_driven_label_encoding).1 [KLoss.categoricalCrossentropy] [[[0], [2], [1]]] 0
     KLoss.categoricalCrossentropy [[0], [2], [1]] rfl rfl⟩

/-! ### Theorems: squeeze behavior of the predict post-process (C10) -/

theorem filterMap_head_colToMat {α : Type} (c : List α) :
    (colToMat c).filterMap List.head? = c := by
  induction c with
  | nil => rfl
  | cons a t ih =>
    show ([a] :: colToMat t).filterMap List.head? = a :: t
    rw [List.filterMap_cons]
    simp only [List.head?_cons]
    rw [ih]

theorem squeeze2_vec_of_singletons {α : Type} (r1 r2 : List α) (t : Mat α)
    (hall : (r1 :: r2 :: t).all (fun r => decide (r.length = 1)) = true) :
    squeeze2 (r1 :: r2 :: t) = Squeezed.vec ((r1 :: r2 :: t).filterMap List.head?) := by
  show (if (r1 :: r2 :: t).all (fun r => decide (r.length = 1)) = true
        then Squeezed.vec ((r1 :: r2 :: t).filterMap List.head?)
        else Squeezed.mat (r1 :: r2 :: t))
    = Squeezed.vec ((r1 :: r2 :: t).filterMap List.head?)
  rw [if_pos hall]

theorem squeeze2_colToMat {α : Type} (c : List α) (h : 2 ≤ c.length) :
    squeeze2 (colToMat c) = Squeezed.vec c := by
  match c, h with
  | a :: b :: t, _ =>
    show squeeze2 ([a] :: [b] :: colToMat t) = Squeezed.vec (a :: b :: t)
    have hall : ([a] :: [b] :: colToMat t).all (fun r => decide (r.length = 1)) = true := by
      rw [List.all_eq_true]
      intro r hr
      rcases List.mem_cons.mp hr with rfl | hr
      · rfl
      rcases List.mem_cons.mp hr with rfl | hr
      · rfl
      obtain ⟨v, _, rfl⟩ := List.mem_map.mp hr
      rfl
    rw [squeeze2_vec_of_singletons _ _ _ hall]
    have := filterMap_head_colToMat (a :: b :: t)
    rw [show colToMat (a :: b :: t) = [a] :: [b] :: colToMat t from rfl] at this
    rw [this]

theorem transposeMat_colToMat (c : List ℚ) (hne : c ≠ []) :
    transposeMat (colToMat c) = [c] := by
  obtain ⟨a, t, rfl⟩ := List.exists_cons_of_ne_nil hne
  show (List.range (Mat.colCount ([a] :: colToMat t))).map
      (fun j => (([a] :: colToMat t)).map (fun r => r.getD j 0)) = [a :: t]
  rw [show Mat.colCount ([a] :: colToMat t) = 1 from rfl,
    show List.range 1 = [0] from rfl]
  simp only [List.map_cons, List.map_nil]
  congr 1
  show a :: (colToMat t).map (fun r => r.getD 0 0) = a :: t
  congr 1
  rw [show colToMat t = t.map (fun v => [v]) from rfl, List.map_map]
  simp [Function.comp_def, List.getD]

/-- C10: every array `predict` hands back goes through `np.squeeze`: a
single-column `(n, 1)` prediction comes back as a 1-D array of length `n`,
and a single sample with a single output comes back as a 0-dimensional
scalar — for the base post-process, the regressor post-process, and the
classifier post-process (labels and stacked probabilities alike). -/
theorem predict_squeeze :
    (∀ c : List ℚ, 2 ≤ c.length →
        baseWrapperPostProcessY (.single (colToMat c)) = .vec c) ∧
    (∀ a : ℚ, baseWrapperPostProcessY (.single [[a]]) = .scalar a) ∧
    (∀ c : List ℚ, 2 ≤ c.length → kerasRegressorPostProcessY (colToMat c) = .vec c) ∧
    (∀ a : ℚ, kerasRegressorPostProcessY [[a]] = .scalar a) ∧
    (∀ (ps : List ℚ) (cs : List Int), 2 ≤ ps.length →
        kerasClassifierPostProcessY 1 [cs] .multilabelIndicator (.single (colToMat ps))
          = Except.ok (.vec (ps.map threshold), .vec ps)) ∧
    (∀ (p : ℚ) (cs : List Int),
        kerasClassifierPostProcessY 1 [cs] .multilabelIndicator (.single [[p]])
          = Except.ok (.scalar (threshold p), .scalar p)) := by
  refine ⟨?_, fun a => rfl, ?_, fun a => rfl, ?_, fun p cs => rfl⟩
  · intro c h
    show squeeze2 (transposeMat (colToMat c)) = Squeezed.vec c
    rw [transposeMat_colToMat c (by intro hc; rw [hc] at h; simp at h)]
    match c, h with
    | a :: b :: t, _ => rfl
  · intro c h
    exact squeeze2_colToMat c h
  · intro ps cs h
    have hloop : classPredLoop .multilabelIndicator
        ((ModelOutput.single (colToMat ps)).toList.zip (clsOf 1 [cs]))
        = Except.ok [colToMat (ps.map threshold)] := by
      rw [show (ModelOutput.single (colToMat ps)).toList.zip (clsOf 1 [cs])
        = [(colToMat ps, cs)] from rfl]
      rw [classPredLoop_multilabel]
      congr 1
      show [(colToMat ps).map (fun r => r.map threshold)] = [colToMat (ps.map threshold)]
      congr 1
      rw [show colToMat ps = ps.map (fun v => [v]) from rfl, List.map_map,
        show colToMat (ps.map threshold) = (ps.map threshold).map (fun v => [v]) from rfl,
        List.map_map]
      rfl
    have hpost := kerasClassifierPostProcessY_ok 1 [cs] .multilabelIndicator hloop
    rw [hstack_singleton] at hpost
    rw [show adjustProbBlocks .multilabelIndicator
        (ModelOutput.single (colToMat ps)).toList (clsOf 1 [cs]) = [colToMat ps] from rfl]
      at hpost
    rw [hstack_singleton] at hpost
    rw [squeeze2_colToMat _ (by rw [List.length_map]; exact h), squeeze2_colToMat _ h]
      at hpost
    exact hpost

theorem predict_squeeze_witness :
    (2 ≤ ([1, 2, 3] : List ℚ).length) ∧
    baseWrapperPostProcessY (.single (colToMat [1, 2, 3])) = .vec [1, 2, 3] ∧
    kerasRegressorPostProcessY (colToMat [1, 2, 3]) = .vec [1, 2, 3] ∧
    kerasClassifierPostProcessY 1 [[0, 1]] .multilabelIndicator (.single (colToMat [1, 0]))
      = Except.ok (.vec (([1, 0] : List ℚ).map threshold), .vec [1, 0]) :=
  ⟨by decide, (predict_squeeze).1 [1, 2, 3] (by decide),
   (predict_squeeze).2.2.1 [1, 2, 3] (by decide),
   (predict_squeeze).2.2.2.2.1 [1, 0] [0, 1] (by decide)⟩
